import Mathlib

/-!
Resource managers of `gel`: a sequential model of `smap.Map`, `resource.Pool` and
`resource.Shareable`.

The Go sources `smap/map.go`, `resource/resource.go`, `resource/pool.go` and
`resource/shareable.go` are embedded as pure functions on explicit state.

* A Go `map[K]V` is a list of entries; the order in which `range` visits the
  entries is not fixed by the language, so every loop over a map takes a
  `seed` that selects the visiting order (every order is selected by some seed).
* A `*Handle[T]` is the address of the handle object together with the
  (immutable) resource stored in it; a fresh allocation gets an address that
  no earlier handle of the pool has.
* The user callbacks `create` and `destroy` are not code of the library.  Each
  operation receives, as an argument, the result the callback gives when it is
  invoked, and reports the list of callback invocations it really made.
* Every operation runs to completion before the next one starts.  A call that
  would wait for ever, or that panics, has an `Outcome` of its own.
-/

set_option linter.unusedSectionVars false

/-! ## Errors -/

/-- Go `error` values that are not nil.  `other id` stands for any error
value produced outside the library (by a callback or a context). -/
inductive Error where
  | ErrClosed
  | Canceled
  | DeadlineExceeded
  | other (id : Nat)
  | errorString (text : String)
  | wrapf (format : String) (err : Error)
  | join (errs : List Error)

mutual
/-- The comparison of two error values with `==`; error values are identified
by what they are made of. -/
def Error.beq : Error → Error → Bool
  | .ErrClosed, .ErrClosed => true
  | .Canceled, .Canceled => true
  | .DeadlineExceeded, .DeadlineExceeded => true
  | .other a, .other b => a == b
  | .errorString s, .errorString t => s == t
  | .wrapf f a, .wrapf g b => f == g && Error.beq a b
  | .join as, .join bs => Error.beqList as bs
  | _, _ => false
/-- Pointwise comparison of two lists of errors. -/
def Error.beqList : List Error → List Error → Bool
  | [], [] => true
  | a :: as, b :: bs => Error.beq a b && Error.beqList as bs
  | _, _ => false
end

mutual
/-- Modelled from the spec: `errors.Is(err, target)` of the Go standard library
for non-nil arguments: `err` matches when it equals `target`, or when the error
it wraps (`%w`) matches, or when one of the errors it joins matches. -/
def errorsIs (target : Error) : Error → Bool
  | .wrapf f e => Error.beq (.wrapf f e) target || errorsIs target e
  | .join es => Error.beq (.join es) target || errorsIsAny target es
  | e => Error.beq e target
/-- Some error of the list matches `target`. -/
def errorsIsAny (target : Error) : List Error → Bool
  | [] => false
  | e :: es => errorsIs target e || errorsIsAny target es
end

/-- Modelled from the spec: `errors.Join(errs...)` of the Go standard library:
nil values are dropped, the result is nil when nothing is left, and otherwise
one error that wraps the remaining ones in order. -/
def errorsJoin (errs : List (Option Error)) : Option Error :=
  match errs.filterMap id with
  | [] => none
  | e :: es => some (.join (e :: es))

/-! ## Contexts and the counting semaphore -/

/-- Modelled from the spec: the cancellable wait context handed to `Acquire`.
The context is not yet done when the call starts.  `never` is a context that is
never done (`context.Background()`); `expires err` is a context that is
cancelled, or whose deadline passes, while the call is waiting, after which
`ctx.Err()` is `err`. -/
inductive Ctx where
  | never
  | expires (err : Error)

/-- Modelled from the spec: the counting limiter
(`golang.org/x/sync/semaphore.Weighted`): `size` tokens in all, `cur` of them
held. -/
structure Weighted where
  size : Nat
  cur : Nat
deriving DecidableEq

/-- What a call of `Weighted.Acquire` comes to when no other call runs at the
same time. -/
inductive SemAcquire where
  | acquired (s : Weighted)
  | failed (err : Error)
  | waits

/-- Modelled from the spec: `semaphore.NewWeighted(n)`. -/
def NewWeighted (n : Nat) : Weighted := { size := n, cur := 0 }

/-- Modelled from the spec: `(*Weighted).Acquire(ctx, n)`: takes `n` tokens when
they are free; otherwise waits until the context is done and returns
`ctx.Err()`, leaving the semaphore unchanged. -/
def Weighted.Acquire (s : Weighted) (ctx : Ctx) (n : Nat) : SemAcquire :=
  if n ≤ s.size - s.cur then .acquired { s with cur := s.cur + n }
  else
    match ctx with
    | .never => .waits
    | .expires err => .failed err

/-- Modelled from the spec: `(*Weighted).Release(n)`: gives `n` tokens back;
`none` is the panic "semaphore: released more than held". -/
def Weighted.Release (s : Weighted) (n : Nat) : Option Weighted :=
  if s.cur < n then none else some { s with cur := s.cur - n }

/-! ## The builtin map -/

namespace gomap

variable {K V : Type} [DecidableEq K]

/-- The read `v, ok = m[k]`. -/
def lookup (m : List (K × V)) (k : K) : Option V :=
  (m.find? (fun e => decide (e.1 = k))).map Prod.snd

/-- The assignment `m[k] = v`. -/
def assign (m : List (K × V)) (k : K) (v : V) : List (K × V) :=
  if m.any (fun e => decide (e.1 = k)) then
    m.map (fun e => if e.1 = k then (e.1, v) else e)
  else m ++ [(k, v)]

/-- The statement `delete(m, k)`. -/
def delete (m : List (K × V)) (k : K) : List (K × V) :=
  m.filter (fun e => decide (e.1 ≠ k))

/-- The order in which `for k, v := range m` visits the entries of `m`.  Go
leaves the order open; `seed` picks it: the next entry visited is the one at
position `s % len` among those not yet visited. -/
def range {α : Type} : List Nat → List α → List α
  | [], m => m
  | s :: seed, m =>
    match m.drop (s % m.length) with
    | [] => m
    | x :: rest => x :: range seed (m.take (s % m.length) ++ rest)

end gomap

/-! ## Package `smap` -/

namespace smap

variable {K V : Type} [DecidableEq K]

/-- The type `Map[K, V]`; the lock is not modelled as calls do not overlap. -/
structure Map (K V : Type) where
  m : List (K × V)

/-- The constructor `Make`: an empty map (the size is only a capacity hint). -/
def Make (_size : Int) : Map K V := { m := [] }

/-- The method `Len`. -/
def Map.Len (sm : Map K V) : Nat := sm.m.length

/-- The method `Set`. -/
def Map.Set (sm : Map K V) (k : K) (v : V) : Map K V := { m := gomap.assign sm.m k v }

/-- The method `Get`; `none` is `ok = false`. -/
def Map.Get (sm : Map K V) (k : K) : Option V := gomap.lookup sm.m k

/-- The method `Delete`. -/
def Map.Delete (sm : Map K V) (k : K) : Map K V := { m := gomap.delete sm.m k }

/-- The method `GetAndDelete`; `none` is `ok = false`. -/
def Map.GetAndDelete (sm : Map K V) (k : K) : Map K V × Option V :=
  ({ m := gomap.delete sm.m k }, gomap.lookup sm.m k)

/-- The method `Update`. -/
def Map.Update (sm : Map K V) (k : K) (v : V) : Map K V × Bool :=
  match gomap.lookup sm.m k with
  | none => (sm, false)
  | some _ => ({ m := gomap.assign sm.m k v }, true)

/-- The loop of `RangeAndDelete` over the entries still to visit.  The visitor
`f` works on a state `S` of its own and returns `(del, cont)`; `none` is a
panic inside `f`. -/
def rangeAndDeleteLoop {S : Type} (f : S → K → V → Option (S × Bool × Bool)) :
    List (K × V) → List (K × V) → S → Option (List (K × V) × S)
  | [], m, s => some (m, s)
  | (k, v) :: todo, m, s =>
    match f s k v with
    | none => none
    | some (s', del, cont) =>
      let m' := if del then gomap.delete m k else m
      if cont then rangeAndDeleteLoop f todo m' s' else some (m', s')

/-- The method `RangeAndDelete`. -/
def Map.RangeAndDelete {S : Type} (sm : Map K V) (seed : List Nat)
    (f : S → K → V → Option (S × Bool × Bool)) (s : S) : Option (Map K V × S) :=
  match rangeAndDeleteLoop f (gomap.range seed sm.m) sm.m s with
  | none => none
  | some (m', s') => some ({ m := m' }, s')

/-- The method `Do`: `f` works on the underlying map and returns its result. -/
def Map.Do {R : Type} (sm : Map K V) (f : List (K × V) → List (K × V) × R) : Map K V × R :=
  let r := f sm.m
  ({ m := r.1 }, r.2)

end smap

/-! ## Package `resource` -/

namespace resource

/-- The type `*Handle[T]`: the address of the handle object and the resource
stored in it (the back-reference `m` to the manager is not needed). -/
structure Handle (T : Type) where
  addr : Nat
  resource : T
deriving DecidableEq

/-- The method `Access`. -/
def Handle.Access {T : Type} (h : Handle T) : T := h.resource

/-- One invocation of a user callback. -/
inductive Call (T : Type) where
  | create (ctx : Ctx)
  | destroy (resource : T)

/-- How a call ends: it returns, it waits for ever, or it panics. -/
inductive Outcome (α : Type) where
  | done (a : α)
  | blocked
  | panicked

/-- The type `Pool[T]`.  The callbacks `create` and `destroy` are passed to each
operation as the results they give; `allocated` counts the handle objects the
pool has allocated so far and is the address of the next one. -/
structure Pool (T : Type) where
  items : smap.Map (Handle T) Bool
  sem : Weighted
  closed : Bool
  allocated : Nat

/-- A call that returned: the pool afterwards, the values returned and the
callback invocations made, in order. -/
structure Ret (T R : Type) where
  pool : Pool T
  result : R
  calls : List (Call T)

variable {T : Type} [DecidableEq T]

/-- The constructor `NewPool`. -/
def NewPool (capacity : Int) : Except Error (Pool T) :=
  if capacity < 1 then
    .error (.errorString "capacity must be 1 or greater")
  else
    .ok { items := smap.Make capacity, sem := NewWeighted capacity.toNat,
          closed := false, allocated := 0 }

/-- The function literal that `Acquire` passes to `items.Do`.  It returns the
map, and as its result the handle `h` it set, the error, the callback
invocations and the number of handles allocated. -/
def Pool.acquireBody (p : Pool T) (ctx : Ctx) (seed : List Nat) (created : Except Error T)
    (items : List (Handle T × Bool)) :
    List (Handle T × Bool) × (Option (Handle T) × Option Error × List (Call T) × Nat) :=
  if p.closed then
    (items, none, some .ErrClosed, [], p.allocated)
  else
    match (gomap.range seed items).find? (fun e => e.2) with
    | some (existing, _) =>
      (gomap.assign items existing false, some existing, none, [], p.allocated)
    | none =>
      match created with
      | .error err =>
        (items, none, some (.wrapf "failed to allocate new resource: %w" err),
          [.create ctx], p.allocated)
      | .ok r =>
        let h : Handle T := { addr := p.allocated, resource := r }
        (gomap.assign items h false, some h, none, [.create ctx], p.allocated + 1)

/-- The method `Pool.Acquire`.  `created` is what `p.create(ctx)` returns when it
is invoked; the result is the pair `(*Handle[T], error)`. -/
def Pool.Acquire (p : Pool T) (ctx : Ctx) (seed : List Nat) (created : Except Error T) :
    Outcome (Ret T (Option (Handle T) × Option Error)) :=
  match p.sem.Acquire ctx 1 with
  | .failed err =>
    .done { pool := p, result := (none, some (.wrapf "error while waiting for capacity: %w" err)),
            calls := [] }
  | .waits => .blocked
  | .acquired sem =>
    match p.items.Do (p.acquireBody ctx seed created) with
    | (items, _, some err, calls, allocated) =>
      match sem.Release 1 with
      | none => .panicked
      | some sem' =>
        .done { pool := { p with items := items, sem := sem', allocated := allocated },
                result := (none, some err), calls := calls }
    | (items, h, none, calls, allocated) =>
      .done { pool := { p with items := items, sem := sem, allocated := allocated },
              result := (h, none), calls := calls }

/-- The method `Pool.Release`. -/
def Pool.Release (p : Pool T) (h : Handle T) : Outcome (Pool T) :=
  match p.items.Update h true with
  | (_, false) => .done p
  | (items, true) =>
    match p.sem.Release 1 with
    | none => .panicked
    | some sem => .done { p with items := items, sem := sem }

/-- The method `Pool.Destroy`.  `destroyed` is what `p.destroy(h.resource)` returns
when it is invoked; the result is the error returned. -/
def Pool.Destroy (p : Pool T) (h : Handle T) (destroyed : Option Error) :
    Outcome (Ret T (Option Error)) :=
  match p.items.GetAndDelete h with
  | (items, none) => .done { pool := { p with items := items }, result := none, calls := [] }
  | (items, some available) =>
    if !available then
      match p.sem.Release 1 with
      | none => .panicked
      | some sem =>
        .done { pool := { p with items := items, sem := sem }, result := destroyed,
                calls := [.destroy h.resource] }
    else
      .done { pool := { p with items := items }, result := destroyed,
              calls := [.destroy h.resource] }

/-- The function literal that `Close` passes to `items.RangeAndDelete`, working
on the semaphore, the slice `closeErrs` and the callback invocations made.
`destroyed h` is what `p.destroy(h.resource)` returns for the entry of `h`. -/
def Pool.closeVisit (destroyed : Handle T → Option Error)
    (s : Weighted × List (Option Error) × List (Call T)) (h : Handle T) (available : Bool) :
    Option ((Weighted × List (Option Error) × List (Call T)) × Bool × Bool) :=
  let err := destroyed h
  let calls := s.2.2 ++ [Call.destroy h.resource]
  if !available then
    match s.1.Release 1 with
    | none => none
    | some sem => some ((sem, s.2.1 ++ [err], calls), true, true)
  else
    some ((s.1, s.2.1 ++ [err], calls), true, true)

/-- The method `Pool.Close`. -/
def Pool.Close (p : Pool T) (seed : List Nat) (destroyed : Handle T → Option Error) :
    Outcome (Ret T (Option Error)) :=
  if p.closed then
    .done { pool := p, result := none, calls := [] }
  else
    match p.items.RangeAndDelete seed (Pool.closeVisit destroyed) (p.sem, [], []) with
    | none => .panicked
    | some (items, sem, closeErrs, calls) =>
      .done { pool := { p with items := items, sem := sem, closed := true },
              result := errorsJoin closeErrs, calls := calls }

/-- One call on a pool, with the visiting order and the callback results it
meets. -/
inductive Op (T : Type) where
  | Acquire (ctx : Ctx) (seed : List Nat) (created : Except Error T)
  | Release (h : Handle T)
  | Destroy (h : Handle T) (destroyed : Option Error)
  | Close (seed : List Nat) (destroyed : Handle T → Option Error)

/-- The pool after one call, when the call returns. -/
def Pool.step (p : Pool T) : Op T → Outcome (Pool T)
  | .Acquire ctx seed created =>
    match p.Acquire ctx seed created with
    | .done r => .done r.pool
    | .blocked => .blocked
    | .panicked => .panicked
  | .Release h => p.Release h
  | .Destroy h destroyed =>
    match p.Destroy h destroyed with
    | .done r => .done r.pool
    | .blocked => .blocked
    | .panicked => .panicked
  | .Close seed destroyed =>
    match p.Close seed destroyed with
    | .done r => .done r.pool
    | .blocked => .blocked
    | .panicked => .panicked

/-- The pool after a sequence of calls, each started when the one before it has
returned. -/
def Pool.run (p : Pool T) : List (Op T) → Outcome (Pool T)
  | [] => .done p
  | op :: ops =>
    match p.step op with
    | .done p' => Pool.run p' ops
    | .blocked => .blocked
    | .panicked => .panicked

/-- The number of entries marked CHECKED_OUT (`false`). -/
def Pool.checkedOut (p : Pool T) : Nat := p.items.m.countP (fun e => !e.2)

/-- The call `op` is `Release(h)`, `Destroy(h)` or `Close`. -/
def Op.frees (h : Handle T) : Op T → Bool
  | .Acquire _ _ _ => false
  | .Release k => decide (k = h)
  | .Destroy k _ => decide (k = h)
  | .Close _ _ => true

/-- The token accounting of the data model: every CHECKED_OUT entry stands for
one held token, and no more tokens are held than the limiter has. -/
def Pool.TokensMatch (p : Pool T) : Prop :=
  p.sem.cur = p.checkedOut ∧ p.sem.cur ≤ p.sem.size

/-- What holds of a pool in every state that calls can bring it to: no key
occurs twice, every key was allocated by the pool, a closed pool has no
entries, at most one token is held per CHECKED_OUT entry, and the limiter has
at least one token and holds no more than it has. -/
structure Pool.WF (p : Pool T) : Prop where
  nodup : (p.items.m.map Prod.fst).Nodup
  fresh : ∀ e ∈ p.items.m, e.1.addr < p.allocated
  drained : p.closed = true → p.items.m = []
  held : p.sem.cur ≤ p.checkedOut
  bound : p.sem.cur ≤ p.sem.size
  positive : 1 ≤ p.sem.size

/-- The call `op` is not a `Release` of a handle whose entry in `p` is
AVAILABLE. -/
def Op.disciplinedAt (p : Pool T) : Op T → Bool
  | .Release h => gomap.lookup p.items.m h != some true
  | _ => true

/-- Along the run of `ops` from `p`, `Release` is never called on a handle whose
entry is AVAILABLE at that moment. -/
def Pool.disciplined (p : Pool T) : List (Op T) → Bool
  | [] => true
  | op :: ops =>
    op.disciplinedAt p &&
      match p.step op with
      | .done p' => Pool.disciplined p' ops
      | _ => true

/-- The type `Shareable[T]`; the mutex is not modelled as calls do not overlap.
A nil `*Handle[T]` is `none`.  As for `Pool`, the callbacks are passed to each
operation as the results they give, and `allocated` is the address of the next
handle object. -/
structure Shareable (T : Type) where
  handle : Option (Handle T)
  closed : Bool
  allocated : Nat

/-- A call on a `Shareable` that returned: the manager afterwards, the values
returned and the callback invocations made, in order. -/
structure SRet (T R : Type) where
  manager : Shareable T
  result : R
  calls : List (Call T)

/-- The constructor `NewShareable`. -/
def NewShareable : Shareable T := { handle := none, closed := false, allocated := 0 }

/-- The method `Shareable.Acquire`.  `created` is what `s.create(ctx)` returns
when it is invoked. -/
def Shareable.Acquire (s : Shareable T) (ctx : Ctx) (created : Except Error T) :
    SRet T (Option (Handle T) × Option Error) :=
  if s.closed then
    { manager := s, result := (none, some .ErrClosed), calls := [] }
  else
    match s.handle with
    | some h => { manager := s, result := (some h, none), calls := [] }
    | none =>
      match created with
      | .error err =>
        { manager := s,
          result := (none, some (.wrapf "failed to allocate new resource: %w" err)),
          calls := [.create ctx] }
      | .ok r =>
        let h : Handle T := { addr := s.allocated, resource := r }
        { manager := { s with handle := some h, allocated := s.allocated + 1 },
          result := (some h, none), calls := [.create ctx] }

/-- The method `Shareable.Release`. -/
def Shareable.Release (s : Shareable T) (_h : Option (Handle T)) : Shareable T := s

/-- The method `Shareable.Destroy`.  `destroyed` is what `s.destroy(h.resource)`
returns when it is invoked.  The first two cases are the test
`s.handle == nil || h != s.handle`. -/
def Shareable.Destroy (s : Shareable T) (h : Option (Handle T)) (destroyed : Option Error) :
    SRet T (Option Error) :=
  match s.handle, h with
  | none, _ => { manager := s, result := none, calls := [] }
  | some _, none => { manager := s, result := none, calls := [] }
  | some current, some k =>
    if k ≠ current then
      { manager := s, result := none, calls := [] }
    else
      { manager := { s with handle := none }, result := destroyed,
        calls := [.destroy k.resource] }

/-- The method `Shareable.Close`. -/
def Shareable.Close (s : Shareable T) (destroyed : Option Error) : SRet T (Option Error) :=
  Shareable.Destroy { s with closed := true } s.handle destroyed

/-- One call on a `Shareable`, with the callback result it meets. -/
inductive SOp (T : Type) where
  | Acquire (ctx : Ctx) (created : Except Error T)
  | Release (h : Option (Handle T))
  | Destroy (h : Option (Handle T)) (destroyed : Option Error)
  | Close (destroyed : Option Error)

/-- The manager after one call. -/
def Shareable.step (s : Shareable T) : SOp T → Shareable T
  | .Acquire ctx created => (s.Acquire ctx created).manager
  | .Release h => s.Release h
  | .Destroy h destroyed => (s.Destroy h destroyed).manager
  | .Close destroyed => (s.Close destroyed).manager

/-- The manager after a sequence of calls. -/
def Shareable.run (s : Shareable T) : List (SOp T) → Shareable T
  | [] => s
  | op :: ops => Shareable.run (s.step op) ops

/-- The call is an `Acquire` or a `Release`. -/
def SOp.keeps : SOp T → Bool
  | .Acquire _ _ => true
  | .Release _ => true
  | .Destroy _ _ => false
  | .Close _ => false

/-- What holds of a `Shareable` in every state that calls can bring it to: the
stored handle was allocated by the manager, and a closed manager stores none. -/
structure Shareable.WF (s : Shareable T) : Prop where
  fresh : ∀ h, s.handle = some h → h.addr < s.allocated
  drained : s.closed = true → s.handle = none

end resource

/-! ## Facts about the builtin map -/

namespace gomap

variable {K V : Type} [DecidableEq K]

theorem range_perm {α : Type} (seed : List Nat) : ∀ m : List α, (range seed m).Perm m := by
  induction seed with
  | nil => intro m; exact List.Perm.refl m
  | cons s seed ih =>
    intro m
    unfold range
    split
    · exact List.Perm.refl m
    · rename_i x rest hd
      have hm : m = m.take (s % m.length) ++ x :: rest := by
        rw [← hd]; exact (List.take_append_drop _ m).symm
      refine ((ih _).cons x).trans ?_
      conv_rhs => rw [hm]
      exact List.perm_middle.symm

/-- Every order of the entries is the visiting order for some seed. -/
theorem range_complete {α : Type} : ∀ (order m : List α), order.Perm m →
    ∃ seed, range seed m = order := by
  intro order
  induction order with
  | nil =>
    intro m hp
    exact ⟨[], by rw [List.Perm.eq_nil hp.symm]; rfl⟩
  | cons x order ih =>
    intro m hp
    have hx : x ∈ m := hp.subset (List.mem_cons_self _ _)
    obtain ⟨s, t, rfl⟩ := List.append_of_mem hx
    have hrest : order.Perm (s ++ t) :=
      (List.perm_cons x).1 (hp.trans List.perm_middle)
    obtain ⟨seed, hseed⟩ := ih (s ++ t) hrest
    refine ⟨s.length :: seed, ?_⟩
    have hlt : s.length < (s ++ x :: t).length := by simp
    have hmod : s.length % (s ++ x :: t).length = s.length := Nat.mod_eq_of_lt hlt
    simp only [range, hmod, List.drop_left, List.take_left, hseed]

theorem mem_range {α : Type} (seed : List Nat) (m : List α) (e : α) :
    e ∈ range seed m ↔ e ∈ m :=
  (range_perm seed m).mem_iff

theorem lookup_nil (k : K) : lookup ([] : List (K × V)) k = none := rfl

theorem lookup_cons (e : K × V) (m : List (K × V)) (k : K) :
    lookup (e :: m) k = if e.1 = k then some e.2 else lookup m k := by
  by_cases hk : e.1 = k <;> simp [lookup, List.find?_cons, hk]

theorem lookup_eq_none {m : List (K × V)} {k : K} :
    lookup m k = none ↔ ∀ e ∈ m, e.1 ≠ k := by
  simp [lookup, List.find?_eq_none]

theorem mem_of_lookup {m : List (K × V)} {k : K} {v : V} (h : lookup m k = some v) :
    (k, v) ∈ m := by
  induction m with
  | nil => simp [lookup_nil] at h
  | cons e m ih =>
    rw [lookup_cons] at h
    by_cases hk : e.1 = k
    · rw [if_pos hk] at h
      have hv : e.2 = v := Option.some.inj h
      have : e = (k, v) := by rw [← hk, ← hv]
      rw [this]
      exact List.mem_cons_self _ _
    · rw [if_neg hk] at h
      exact List.mem_cons_of_mem _ (ih h)

theorem lookup_of_mem {m : List (K × V)} {k : K} {v : V}
    (hn : (m.map Prod.fst).Nodup) (h : (k, v) ∈ m) : lookup m k = some v := by
  induction m with
  | nil => cases h
  | cons e m ih =>
    simp only [List.map_cons, List.nodup_cons] at hn
    rw [lookup_cons]
    by_cases hk : e.1 = k
    · rw [if_pos hk]
      rcases List.mem_cons.1 h with h | h
      · rw [← h]
      · exact absurd (List.mem_map_of_mem Prod.fst h) (by simpa [hk] using hn.1)
    · rw [if_neg hk]
      have hne : (k, v) ≠ e := fun h => hk (by rw [← h])
      rcases List.mem_cons.1 h with h | h
      · exact absurd h hne
      · exact ih hn.2 h

theorem lookup_isSome {m : List (K × V)} {k : K} :
    (m.any (fun e => decide (e.1 = k))) = (lookup m k).isSome := by
  induction m with
  | nil => rfl
  | cons e m ih =>
    rw [lookup_cons, List.any_cons, ih]
    by_cases hk : e.1 = k <;> simp [hk]

theorem lookup_delete (m : List (K × V)) (k k' : K) :
    lookup (delete m k) k' = if k' = k then none else lookup m k' := by
  induction m with
  | nil => simp [delete, lookup_nil]
  | cons e m ih =>
    unfold delete at ih ⊢
    by_cases hk : e.1 = k
    · rw [List.filter_cons_of_neg (by simp [hk]), ih, lookup_cons]
      by_cases hk' : k' = k
      · simp [hk']
      · have : ¬ e.1 = k' := fun h => hk' (by rw [← h, hk])
        simp [hk', this]
    · rw [List.filter_cons_of_pos (by simp [hk]), lookup_cons, ih, lookup_cons]
      by_cases hk' : k' = k
      · subst hk'
        simp [hk]
      · simp [hk']

theorem delete_of_lookup_none {m : List (K × V)} {k : K} (h : lookup m k = none) :
    delete m k = m := by
  unfold delete
  rw [List.filter_eq_self]
  intro e he
  simpa using (lookup_eq_none.1 h) e he

theorem mem_delete {m : List (K × V)} {k : K} {e : K × V} :
    e ∈ delete m k ↔ e ∈ m ∧ e.1 ≠ k := by
  simp [delete, List.mem_filter]

theorem assign_of_lookup_none {m : List (K × V)} {k : K} (v : V) (h : lookup m k = none) :
    assign m k v = m ++ [(k, v)] := by
  unfold assign
  rw [lookup_isSome, h]
  simp

theorem assign_of_lookup_some {m : List (K × V)} {k : K} {w : V} (v : V)
    (h : lookup m k = some w) :
    assign m k v = m.map (fun e => if e.1 = k then (e.1, v) else e) := by
  unfold assign
  rw [lookup_isSome, h]
  simp

theorem keys_assign_of_lookup_some {m : List (K × V)} {k : K} {w : V} (v : V)
    (h : lookup m k = some w) : (assign m k v).map Prod.fst = m.map Prod.fst := by
  rw [assign_of_lookup_some v h, List.map_map]
  apply List.map_congr_left
  intro e _
  by_cases hk : e.1 = k <;> simp [hk]

theorem lookup_replace (m : List (K × V)) (k k' : K) (v : V) :
    lookup (m.map (fun e => if e.1 = k then (e.1, v) else e)) k' =
      if k' = k then (lookup m k).map (fun _ => v) else lookup m k' := by
  induction m with
  | nil => simp [lookup_nil]
  | cons e m ih =>
    rw [List.map_cons, lookup_cons, ih, lookup_cons, lookup_cons]
    by_cases hk : e.1 = k
    · by_cases hk' : k' = k
      · subst hk'
        simp [hk]
      · have : ¬ k = k' := fun h => hk' h.symm
        simp [hk, hk', this]
    · by_cases hk' : k' = k
      · subst hk'
        simp [hk]
      · simp [hk, hk']

theorem lookup_append_single (m : List (K × V)) (k k' : K) (v : V)
    (hl : lookup m k = none) :
    lookup (m ++ [(k, v)]) k' = if k' = k then some v else lookup m k' := by
  induction m with
  | nil =>
    by_cases hk : k' = k
    · subst hk
      simp [lookup_cons]
    · have : ¬ k = k' := fun h => hk h.symm
      simp [lookup_cons, lookup_nil, hk, this]
  | cons e m ih =>
    rw [lookup_cons] at hl
    by_cases hk : e.1 = k
    · simp [hk] at hl
    · rw [if_neg hk] at hl
      rw [List.cons_append, lookup_cons, ih hl, lookup_cons]
      by_cases hk' : k' = k
      · subst hk'
        simp [hk]
      · simp [hk']

theorem lookup_assign (m : List (K × V)) (k k' : K) (v : V) :
    lookup (assign m k v) k' = if k' = k then some v else lookup m k' := by
  cases hl : lookup m k with
  | none => rw [assign_of_lookup_none v hl, lookup_append_single m k k' v hl]
  | some w => rw [assign_of_lookup_some v hl, lookup_replace, hl]; rfl

theorem replace_of_lookup_none {m : List (K × V)} {k : K} (v : V) (h : lookup m k = none) :
    m.map (fun e => if e.1 = k then (e.1, v) else e) = m := by
  conv_rhs => rw [← List.map_id m]
  apply List.map_congr_left
  intro e he
  simp [(lookup_eq_none.1 h) e he]

theorem lookup_none_of_not_mem_keys {m : List (K × V)} {k : K}
    (h : k ∉ m.map Prod.fst) : lookup m k = none := by
  rw [lookup_eq_none]
  intro e he hk
  exact h (hk ▸ List.mem_map_of_mem Prod.fst he)

theorem nodup_delete {m : List (K × V)} (k : K) (hn : (m.map Prod.fst).Nodup) :
    ((delete m k).map Prod.fst).Nodup :=
  hn.sublist ((List.filter_sublist m).map Prod.fst)

theorem nodup_assign {m : List (K × V)} (k : K) (v : V) (hn : (m.map Prod.fst).Nodup) :
    ((assign m k v).map Prod.fst).Nodup := by
  cases hl : lookup m k with
  | none =>
    rw [assign_of_lookup_none v hl, List.map_append]
    refine List.Nodup.append hn (List.nodup_singleton _) ?_
    intro x hx hx'
    simp only [List.map_cons, List.map_nil, List.mem_singleton] at hx'
    subst hx'
    obtain ⟨e, he, hk⟩ := List.mem_map.1 hx
    exact (lookup_eq_none.1 hl) e he hk
  | some w => rw [keys_assign_of_lookup_some v hl]; exact hn

/-- Replacing the value of a key that occurs once moves the count of `false`
entries by the difference between the new and the old value. -/
theorem countP_replace {m : List (K × Bool)} {k : K} {w : Bool} (v : Bool)
    (hn : (m.map Prod.fst).Nodup) (hl : lookup m k = some w) :
    (m.map (fun e => if e.1 = k then (e.1, v) else e)).countP (fun e => !e.2)
        + (if w then 0 else 1)
      = m.countP (fun e => !e.2) + (if v then 0 else 1) := by
  induction m with
  | nil => simp [lookup_nil] at hl
  | cons e m ih =>
    simp only [List.map_cons, List.nodup_cons] at hn
    rw [lookup_cons] at hl
    by_cases hk : e.1 = k
    · rw [if_pos hk] at hl
      have hw : e.2 = w := Option.some.inj hl
      have hnone : lookup m k = none := lookup_none_of_not_mem_keys (hk ▸ hn.1)
      rw [List.map_cons, replace_of_lookup_none v hnone, List.countP_cons, List.countP_cons]
      subst hw
      cases hv : v <;> cases he : e.2 <;> simp [hk, he]
    · rw [if_neg hk] at hl
      have := ih hn.2 hl
      rw [List.map_cons, List.countP_cons, List.countP_cons]
      simp only [hk, if_false]
      omega

theorem countP_delete {m : List (K × Bool)} {k : K} {w : Bool}
    (hn : (m.map Prod.fst).Nodup) (hl : lookup m k = some w) :
    (delete m k).countP (fun e => !e.2) + (if w then 0 else 1)
      = m.countP (fun e => !e.2) := by
  induction m with
  | nil => simp [lookup_nil] at hl
  | cons e m ih =>
    simp only [List.map_cons, List.nodup_cons] at hn
    rw [lookup_cons] at hl
    by_cases hk : e.1 = k
    · rw [if_pos hk] at hl
      have hw : e.2 = w := Option.some.inj hl
      have hnone : lookup m k = none := lookup_none_of_not_mem_keys (hk ▸ hn.1)
      have hd : delete (e :: m) k = m := by
        have := delete_of_lookup_none hnone
        unfold delete at this ⊢
        rw [List.filter_cons_of_neg (by simp [hk]), this]
      rw [hd, List.countP_cons]
      subst hw
      cases he : e.2 <;> simp
    · rw [if_neg hk] at hl
      have := ih hn.2 hl
      have hd : delete (e :: m) k = e :: delete m k := by
        unfold delete
        rw [List.filter_cons_of_pos (by simp [hk])]
      rw [hd, List.countP_cons, List.countP_cons]
      omega

theorem length_delete {m : List (K × V)} {k : K} {w : V}
    (hn : (m.map Prod.fst).Nodup) (hl : lookup m k = some w) :
    (delete m k).length + 1 = m.length := by
  induction m with
  | nil => simp [lookup_nil] at hl
  | cons e m ih =>
    simp only [List.map_cons, List.nodup_cons] at hn
    rw [lookup_cons] at hl
    by_cases hk : e.1 = k
    · have hnone : lookup m k = none := lookup_none_of_not_mem_keys (hk ▸ hn.1)
      have := delete_of_lookup_none hnone
      unfold delete at this ⊢
      rw [List.filter_cons_of_neg (by simp [hk]), this, List.length_cons]
    · rw [if_neg hk] at hl
      have := ih hn.2 hl
      unfold delete at this ⊢
      rw [List.filter_cons_of_pos (by simp [hk]), List.length_cons, List.length_cons, this]

theorem foldl_delete (todo : List (K × V)) : ∀ m : List (K × V),
    todo.foldl (fun m e => delete m e.1) m
      = m.filter (fun x => decide (∀ e ∈ todo, e.1 ≠ x.1)) := by
  induction todo with
  | nil => intro m; simp
  | cons t todo ih =>
    intro m
    rw [List.foldl_cons, ih, delete, List.filter_filter]
    apply List.filter_congr
    intro x _
    simp only [List.mem_cons, forall_eq_or_imp]
    rw [← Bool.decide_and]
    apply decide_eq_decide.2
    exact ⟨fun h => ⟨fun h' => h.2 h'.symm, h.1⟩, fun h => ⟨h.2, fun h' => h.1 h'.symm⟩⟩

theorem foldl_delete_all {todo m : List (K × V)} (h : ∀ e ∈ m, e ∈ todo) :
    todo.foldl (fun m e => delete m e.1) m = [] := by
  rw [foldl_delete, List.filter_eq_nil_iff]
  intro x hx
  simp only [ne_eq, decide_eq_true_eq, not_forall, Classical.not_imp, not_not]
  exact ⟨x, h x hx, rfl⟩

theorem mem_assign {m : List (K × V)} {k : K} {v : V} {e : K × V}
    (h : e ∈ assign m k v) : e = (k, v) ∨ e ∈ m := by
  unfold assign at h
  split at h
  · obtain ⟨e0, he0, rfl⟩ := List.mem_map.1 h
    by_cases hk : e0.1 = k
    · left; simp [hk]
    · right; simpa [hk] using he0
  · rcases List.mem_append.1 h with h | h
    · exact Or.inr h
    · exact Or.inl (List.mem_singleton.1 h)

theorem find_range_some {m : List (K × Bool)} {seed : List Nat} {k : K} {b : Bool}
    (h : (range seed m).find? (fun e => e.2) = some (k, b)) : b = true ∧ (k, true) ∈ m := by
  have h1 := List.find?_some h
  have h2 := List.mem_of_find?_eq_some h
  simp only at h1
  subst h1
  exact ⟨rfl, (mem_range seed m _).1 h2⟩

theorem find_range_none {m : List (K × Bool)} {seed : List Nat}
    (h : (range seed m).find? (fun e => e.2) = none) : ∀ e ∈ m, e.2 = false := by
  intro e he
  have := List.find?_eq_none.1 h e ((mem_range seed m e).2 he)
  simpa using this

theorem find_range_isSome {m : List (K × Bool)} (seed : List Nat) {e : K × Bool}
    (he : e ∈ m) (ht : e.2 = true) :
    ∃ k, (range seed m).find? (fun e => e.2) = some (k, true) := by
  cases hf : (range seed m).find? (fun e => e.2) with
  | none => exact absurd ht (by simp [find_range_none hf e he])
  | some x =>
    obtain ⟨k, b⟩ := x
    obtain ⟨rfl, _⟩ := find_range_some hf
    exact ⟨k, rfl⟩

end gomap

/-! ## Facts about errors -/

mutual
theorem Error.beq_refl : ∀ e : Error, Error.beq e e = true
  | .ErrClosed => rfl
  | .Canceled => rfl
  | .DeadlineExceeded => rfl
  | .other a => by simp [Error.beq]
  | .errorString s => by simp [Error.beq]
  | .wrapf f a => by simp [Error.beq, Error.beq_refl a]
  | .join es => by simp [Error.beq, Error.beqList_refl es]
theorem Error.beqList_refl : ∀ es : List Error, Error.beqList es es = true
  | [] => rfl
  | e :: es => by simp [Error.beqList, Error.beq_refl e, Error.beqList_refl es]
end

theorem errorsIs_self (e : Error) : errorsIs e e = true := by
  cases e <;> simp [errorsIs, Error.beq_refl]

theorem errorsIs_wrapf (format : String) (e : Error) :
    errorsIs e (.wrapf format e) = true := by
  simp [errorsIs, errorsIs_self]

theorem errorsIsAny_of_mem {e : Error} : ∀ {es : List Error}, e ∈ es →
    errorsIsAny e es = true
  | [], h => by cases h
  | x :: xs, h => by
    rcases List.mem_cons.1 h with h | h
    · simp [errorsIsAny, ← h, errorsIs_self]
    · simp [errorsIsAny, errorsIsAny_of_mem h]

theorem errorsIs_join {e : Error} {es : List Error} (h : e ∈ es) :
    errorsIs e (.join es) = true := by
  simp [errorsIs, errorsIsAny_of_mem h]

theorem errorsJoin_eq_none {errs : List (Option Error)} :
    errorsJoin errs = none ↔ ∀ x ∈ errs, x = none := by
  unfold errorsJoin
  constructor
  · intro h x hx
    cases hfm : errs.filterMap id with
    | nil =>
      rw [List.filterMap_eq_nil_iff] at hfm
      simpa using hfm x hx
    | cons e es => rw [hfm] at h; cases h
  · intro h
    have : errs.filterMap id = [] := by
      rw [List.filterMap_eq_nil_iff]
      intro x hx
      simp [h x hx]
    rw [this]

theorem errorsJoin_wraps {errs : List (Option Error)} {e : Error} (h : some e ∈ errs) :
    ∃ es, errorsJoin errs = some (.join es) ∧ errorsIs e (.join es) = true ∧
      ∀ x, x ∈ es ↔ some x ∈ errs := by
  have hm : ∀ x, x ∈ errs.filterMap id ↔ some x ∈ errs := by
    intro x
    simp [List.mem_filterMap]
  have he : e ∈ errs.filterMap id := (hm e).2 h
  unfold errorsJoin
  cases hfm : errs.filterMap id with
  | nil => rw [hfm] at he; cases he
  | cons y ys =>
    rw [hfm] at he hm
    exact ⟨y :: ys, rfl, errorsIs_join he, hm⟩

/-! ## The calls of `Pool`, case by case -/

namespace resource

variable {T : Type} [DecidableEq T]

theorem Pool.Acquire_full_expires (p : Pool T) (err : Error) (seed : List Nat)
    (created : Except Error T) (hfull : p.sem.size ≤ p.sem.cur) :
    p.Acquire (.expires err) seed created =
      .done { pool := p,
              result := (none, some (.wrapf "error while waiting for capacity: %w" err)),
              calls := [] } := by
  have : ¬ 1 ≤ p.sem.size - p.sem.cur := by omega
  simp [Pool.Acquire, Weighted.Acquire, this]

theorem Pool.Acquire_full_never (p : Pool T) (seed : List Nat)
    (created : Except Error T) (hfull : p.sem.size ≤ p.sem.cur) :
    p.Acquire .never seed created = .blocked := by
  have : ¬ 1 ≤ p.sem.size - p.sem.cur := by omega
  simp [Pool.Acquire, Weighted.Acquire, this]

theorem Pool.Acquire_closed (p : Pool T) (ctx : Ctx) (seed : List Nat)
    (created : Except Error T) (hfree : p.sem.cur < p.sem.size) (hc : p.closed = true) :
    p.Acquire ctx seed created =
      .done { pool := p, result := (none, some .ErrClosed), calls := [] } := by
  have h1 : 1 ≤ p.sem.size - p.sem.cur := by omega
  rcases p with ⟨⟨m⟩, ⟨size, cur⟩, closed, allocated⟩
  simp only at hc h1
  simp [Pool.Acquire, Weighted.Acquire, h1, smap.Map.Do, Pool.acquireBody, hc, Weighted.Release]

theorem Pool.Acquire_reuse (p : Pool T) (ctx : Ctx) (seed : List Nat)
    (created : Except Error T) (hfree : p.sem.cur < p.sem.size) (hc : p.closed = false)
    (existing : Handle T) (b : Bool)
    (hf : (gomap.range seed p.items.m).find? (fun e => e.2) = some (existing, b)) :
    p.Acquire ctx seed created =
      .done { pool := { p with items := { m := gomap.assign p.items.m existing false },
                               sem := { p.sem with cur := p.sem.cur + 1 } },
              result := (some existing, none), calls := [] } := by
  have h1 : 1 ≤ p.sem.size - p.sem.cur := by omega
  simp [Pool.Acquire, Weighted.Acquire, h1, smap.Map.Do, Pool.acquireBody, hc, hf]

theorem Pool.Acquire_create_error (p : Pool T) (ctx : Ctx) (seed : List Nat)
    (err : Error) (hfree : p.sem.cur < p.sem.size) (hc : p.closed = false)
    (hf : (gomap.range seed p.items.m).find? (fun e => e.2) = none) :
    p.Acquire ctx seed (.error err) =
      .done { pool := p,
              result := (none, some (.wrapf "failed to allocate new resource: %w" err)),
              calls := [.create ctx] } := by
  have h1 : 1 ≤ p.sem.size - p.sem.cur := by omega
  rcases p with ⟨⟨m⟩, ⟨size, cur⟩, closed, allocated⟩
  simp only at hc h1 hf
  simp [Pool.Acquire, Weighted.Acquire, h1, smap.Map.Do, Pool.acquireBody, hc, hf,
    Weighted.Release]

theorem Pool.Acquire_create_ok (p : Pool T) (ctx : Ctx) (seed : List Nat)
    (r : T) (hfree : p.sem.cur < p.sem.size) (hc : p.closed = false)
    (hf : (gomap.range seed p.items.m).find? (fun e => e.2) = none) :
    p.Acquire ctx seed (.ok r) =
      .done { pool := { items := { m := gomap.assign p.items.m ⟨p.allocated, r⟩ false },
                        sem := { p.sem with cur := p.sem.cur + 1 },
                        closed := p.closed,
                        allocated := p.allocated + 1 },
              result := (some ⟨p.allocated, r⟩, none), calls := [.create ctx] } := by
  have h1 : 1 ≤ p.sem.size - p.sem.cur := by omega
  simp [Pool.Acquire, Weighted.Acquire, h1, smap.Map.Do, Pool.acquireBody, hc, hf]

theorem Pool.Release_absent (p : Pool T) (h : Handle T)
    (hl : gomap.lookup p.items.m h = none) : p.Release h = .done p := by
  simp [Pool.Release, smap.Map.Update, hl]

theorem Pool.Release_present (p : Pool T) (h : Handle T) (w : Bool)
    (hl : gomap.lookup p.items.m h = some w) (htok : 1 ≤ p.sem.cur) :
    p.Release h =
      .done { p with items := { m := gomap.assign p.items.m h true },
                     sem := { p.sem with cur := p.sem.cur - 1 } } := by
  have : ¬ p.sem.cur < 1 := by omega
  simp [Pool.Release, smap.Map.Update, hl, Weighted.Release, this]

theorem Pool.Release_over (p : Pool T) (h : Handle T) (w : Bool)
    (hl : gomap.lookup p.items.m h = some w) (htok : p.sem.cur = 0) :
    p.Release h = .panicked := by
  simp [Pool.Release, smap.Map.Update, hl, Weighted.Release, htok]

theorem Pool.Destroy_absent (p : Pool T) (h : Handle T) (destroyed : Option Error)
    (hl : gomap.lookup p.items.m h = none) :
    p.Destroy h destroyed = .done { pool := p, result := none, calls := [] } := by
  simp [Pool.Destroy, smap.Map.GetAndDelete, hl, gomap.delete_of_lookup_none hl]

theorem Pool.Destroy_available (p : Pool T) (h : Handle T) (destroyed : Option Error)
    (hl : gomap.lookup p.items.m h = some true) :
    p.Destroy h destroyed =
      .done { pool := { p with items := { m := gomap.delete p.items.m h } },
              result := destroyed, calls := [.destroy h.resource] } := by
  simp [Pool.Destroy, smap.Map.GetAndDelete, hl]

theorem Pool.Destroy_checkedOut (p : Pool T) (h : Handle T) (destroyed : Option Error)
    (hl : gomap.lookup p.items.m h = some false) (htok : 1 ≤ p.sem.cur) :
    p.Destroy h destroyed =
      .done { pool := { p with items := { m := gomap.delete p.items.m h },
                               sem := { p.sem with cur := p.sem.cur - 1 } },
              result := destroyed, calls := [.destroy h.resource] } := by
  have : ¬ p.sem.cur < 1 := by omega
  simp [Pool.Destroy, smap.Map.GetAndDelete, hl, Weighted.Release, this]

theorem Pool.Destroy_over (p : Pool T) (h : Handle T) (destroyed : Option Error)
    (hl : gomap.lookup p.items.m h = some false) (htok : p.sem.cur = 0) :
    p.Destroy h destroyed = .panicked := by
  simp [Pool.Destroy, smap.Map.GetAndDelete, hl, Weighted.Release, htok]

theorem Pool.closeLoop_eq (destroyed : Handle T → Option Error) (todo : List (Handle T × Bool)) :
    ∀ (m : List (Handle T × Bool)) (sem : Weighted) (errs : List (Option Error))
      (calls : List (Call T)),
    smap.rangeAndDeleteLoop (Pool.closeVisit destroyed) todo m (sem, errs, calls) =
      if sem.cur < todo.countP (fun e => !e.2) then none
      else some (todo.foldl (fun m e => gomap.delete m e.1) m,
        ({ sem with cur := sem.cur - todo.countP (fun e => !e.2) },
         errs ++ todo.map (fun e => destroyed e.1),
         calls ++ todo.map (fun e => Call.destroy e.1.resource))) := by
  induction todo with
  | nil => intro m sem errs calls; simp [smap.rangeAndDeleteLoop]
  | cons e todo ih =>
    intro m sem errs calls
    obtain ⟨h, a⟩ := e
    cases a with
    | true =>
      simp only [smap.rangeAndDeleteLoop, Pool.closeVisit, Bool.not_true, if_true, ih,
        List.countP_cons, List.foldl_cons, List.map_cons, List.append_assoc,
        List.singleton_append]
      simp
    | false =>
      by_cases h0 : sem.cur < 1
      · have hlt : sem.cur < List.countP (fun e => !e.2) todo + 1 := by omega
        simp [smap.rangeAndDeleteLoop, Pool.closeVisit, Weighted.Release, h0, hlt]
      · simp only [smap.rangeAndDeleteLoop, Pool.closeVisit, Bool.not_false, if_true,
          Weighted.Release, h0, if_false, ih, List.countP_cons, List.foldl_cons, List.map_cons,
          List.append_assoc, List.singleton_append]
        by_cases h1 : sem.cur - 1 < List.countP (fun e => !e.2) todo
        · have h2 : sem.cur < List.countP (fun e => !e.2) todo + 1 := by omega
          simp [h1, h2]
        · have h2 : ¬ sem.cur < List.countP (fun e => !e.2) todo + 1 := by omega
          simp [h1, h2]
          omega

theorem Pool.Close_closed (p : Pool T) (seed : List Nat) (destroyed : Handle T → Option Error)
    (hc : p.closed = true) :
    p.Close seed destroyed = .done { pool := p, result := none, calls := [] } := by
  simp [Pool.Close, hc]

theorem Pool.Close_open (p : Pool T) (seed : List Nat) (destroyed : Handle T → Option Error)
    (hc : p.closed = false) (htok : p.checkedOut ≤ p.sem.cur) :
    p.Close seed destroyed =
      .done { pool := { p with items := { m := [] },
                               sem := { p.sem with cur := p.sem.cur - p.checkedOut },
                               closed := true },
              result := errorsJoin ((gomap.range seed p.items.m).map (fun e => destroyed e.1)),
              calls := (gomap.range seed p.items.m).map (fun e => Call.destroy e.1.resource) } := by
  have hcount : (gomap.range seed p.items.m).countP (fun e => !e.2) = p.checkedOut :=
    (gomap.range_perm seed p.items.m).countP_eq _
  have hno : ¬ p.sem.cur < p.checkedOut := by omega
  have hall : (gomap.range seed p.items.m).foldl (fun m e => gomap.delete m e.1) p.items.m = [] :=
    gomap.foldl_delete_all (fun e he => (gomap.mem_range seed p.items.m e).2 he)
  simp [Pool.Close, hc, smap.Map.RangeAndDelete, Pool.closeLoop_eq, hcount, hno, hall]

theorem Pool.Close_over (p : Pool T) (seed : List Nat) (destroyed : Handle T → Option Error)
    (hc : p.closed = false) (htok : p.sem.cur < p.checkedOut) :
    p.Close seed destroyed = .panicked := by
  have hcount : (gomap.range seed p.items.m).countP (fun e => !e.2) = p.checkedOut :=
    (gomap.range_perm seed p.items.m).countP_eq _
  simp [Pool.Close, hc, smap.Map.RangeAndDelete, Pool.closeLoop_eq, hcount, htok]

/-- What a returning `Acquire` can have done: nothing (it failed), marked an
AVAILABLE entry CHECKED_OUT, or added an entry for a newly allocated handle. -/
theorem Pool.Acquire_done_cases {p : Pool T} {ctx : Ctx} {seed : List Nat}
    {created : Except Error T} {r : Ret T (Option (Handle T) × Option Error)}
    (h : p.Acquire ctx seed created = .done r) :
    (r.pool = p ∧ r.result.1 = none ∧ r.result.2 ≠ none) ∨
    (∃ existing, (existing, true) ∈ p.items.m ∧ p.sem.cur < p.sem.size ∧ p.closed = false ∧
      r = { pool := { p with items := { m := gomap.assign p.items.m existing false },
                             sem := { p.sem with cur := p.sem.cur + 1 } },
            result := (some existing, none), calls := [] }) ∨
    (∃ x, (∀ e ∈ p.items.m, e.2 = false) ∧ p.sem.cur < p.sem.size ∧ p.closed = false ∧
      created = .ok x ∧
      r = { pool := { items := { m := gomap.assign p.items.m ⟨p.allocated, x⟩ false },
                      sem := { p.sem with cur := p.sem.cur + 1 },
                      closed := p.closed,
                      allocated := p.allocated + 1 },
            result := (some ⟨p.allocated, x⟩, none), calls := [.create ctx] }) := by
  by_cases hfree : p.sem.cur < p.sem.size
  · rcases Bool.eq_false_or_eq_true p.closed with hc | hc
    · rw [Pool.Acquire_closed p ctx seed created hfree hc] at h
      cases h
      exact Or.inl ⟨rfl, rfl, by simp⟩
    · cases hf : (gomap.range seed p.items.m).find? (fun e => e.2) with
      | some x =>
        obtain ⟨existing, b⟩ := x
        rw [Pool.Acquire_reuse p ctx seed created hfree hc existing b hf] at h
        cases h
        exact Or.inr (Or.inl ⟨existing, (gomap.find_range_some hf).2, hfree, hc, rfl⟩)
      | none =>
        cases created with
        | error err =>
          rw [Pool.Acquire_create_error p ctx seed err hfree hc hf] at h
          cases h
          exact Or.inl ⟨rfl, rfl, by simp⟩
        | ok x =>
          rw [Pool.Acquire_create_ok p ctx seed x hfree hc hf] at h
          cases h
          exact Or.inr (Or.inr ⟨x, gomap.find_range_none hf, hfree, hc, rfl, rfl⟩)
  · have hfull : p.sem.size ≤ p.sem.cur := by omega
    cases ctx with
    | never => rw [Pool.Acquire_full_never p seed created hfull] at h; cases h
    | expires err =>
      rw [Pool.Acquire_full_expires p err seed created hfull] at h
      cases h
      exact Or.inl ⟨rfl, rfl, by simp⟩

theorem Pool.WF.lookup_fresh {p : Pool T} (hw : p.WF) (x : T) :
    gomap.lookup p.items.m (⟨p.allocated, x⟩ : Handle T) = none := by
  rw [gomap.lookup_eq_none]
  intro e he hk
  have := hw.fresh e he
  rw [hk] at this
  exact Nat.lt_irrefl _ this

theorem Pool.WF.after_Acquire {p : Pool T} (hw : p.WF) {ctx : Ctx} {seed : List Nat}
    {created : Except Error T} {r : Ret T (Option (Handle T) × Option Error)}
    (h : p.Acquire ctx seed created = .done r) : r.pool.WF := by
  rcases Pool.Acquire_done_cases h with ⟨hp, _, _⟩ | ⟨existing, hmem, hfree, hc, rfl⟩ |
    ⟨x, hall, hfree, hc, _, rfl⟩
  · rw [hp]; exact hw
  · have hl := gomap.lookup_of_mem hw.nodup hmem
    refine ⟨?_, ?_, ?_, ?_, ?_, hw.positive⟩
    · exact gomap.nodup_assign _ _ hw.nodup
    · intro e he
      rcases gomap.mem_assign he with he | he
      · have := hw.fresh _ hmem
        rw [he]
        exact this
      · exact hw.fresh e he
    · intro hc'; simp [hc] at hc'
    · have := gomap.countP_replace false hw.nodup hl
      have hh := hw.held
      simp only [↓reduceIte, Bool.false_eq_true] at this
      simp only [Pool.checkedOut, gomap.assign_of_lookup_some false hl] at hh ⊢
      omega
    · show p.sem.cur + 1 ≤ p.sem.size
      omega
  · have hl := hw.lookup_fresh x
    refine ⟨?_, ?_, ?_, ?_, ?_, hw.positive⟩
    · exact gomap.nodup_assign _ _ hw.nodup
    · intro e he
      rcases gomap.mem_assign he with he | he
      · rw [he]; exact Nat.lt_succ_self _
      · exact Nat.lt_succ_of_lt (hw.fresh e he)
    · intro hc'; simp [hc] at hc'
    · have hh := hw.held
      simp only [Pool.checkedOut, gomap.assign_of_lookup_none false hl] at hh ⊢
      simp
      omega
    · show p.sem.cur + 1 ≤ p.sem.size
      omega

theorem Pool.WF.lookup_of_closed {p : Pool T} (hw : p.WF) (hc : p.closed = true)
    (h : Handle T) : gomap.lookup p.items.m h = none := by
  rw [hw.drained hc]; rfl

theorem Pool.WF.after_Release {p p' : Pool T} (hw : p.WF) {h : Handle T}
    (hr : p.Release h = .done p') : p'.WF := by
  cases hl : gomap.lookup p.items.m h with
  | none =>
    rw [Pool.Release_absent p h hl] at hr
    cases hr
    exact hw
  | some w =>
    by_cases htok : 1 ≤ p.sem.cur
    · rw [Pool.Release_present p h w hl htok] at hr
      cases hr
      refine ⟨?_, ?_, ?_, ?_, ?_, hw.positive⟩
      · exact gomap.nodup_assign _ _ hw.nodup
      · intro e he
        rcases gomap.mem_assign he with he | he
        · have := hw.fresh _ (gomap.mem_of_lookup hl)
          rw [he]
          exact this
        · exact hw.fresh e he
      · intro hc
        have := hw.lookup_of_closed hc h
        rw [hl] at this
        cases this
      · have := gomap.countP_replace true hw.nodup hl
        have hh := hw.held
        simp only [↓reduceIte] at this
        simp only [Pool.checkedOut, gomap.assign_of_lookup_some true hl] at hh ⊢
        show p.sem.cur - 1 ≤ _
        split at this <;> omega
      · show p.sem.cur - 1 ≤ p.sem.size
        have := hw.bound
        omega
    · rw [Pool.Release_over p h w hl (by omega)] at hr
      cases hr

theorem Pool.WF.after_Destroy {p : Pool T} (hw : p.WF) {h : Handle T} {destroyed : Option Error}
    {r : Ret T (Option Error)} (hd : p.Destroy h destroyed = .done r) : r.pool.WF := by
  cases hl : gomap.lookup p.items.m h with
  | none =>
    rw [Pool.Destroy_absent p h destroyed hl] at hd
    cases hd
    exact hw
  | some w =>
    have hdrained : p.closed = true → gomap.delete p.items.m h = [] := by
      intro hc
      have := hw.lookup_of_closed hc h
      rw [hl] at this
      cases this
    have hfresh : ∀ e ∈ gomap.delete p.items.m h, e.1.addr < p.allocated :=
      fun e he => hw.fresh e (gomap.mem_delete.1 he).1
    have hcount := gomap.countP_delete hw.nodup hl
    have hh := hw.held
    simp only [Pool.checkedOut] at hh
    cases w with
    | true =>
      rw [Pool.Destroy_available p h destroyed hl] at hd
      cases hd
      refine ⟨gomap.nodup_delete _ hw.nodup, hfresh, hdrained, ?_, hw.bound, hw.positive⟩
      simp only [↓reduceIte] at hcount
      simp only [Pool.checkedOut]
      omega
    | false =>
      by_cases htok : 1 ≤ p.sem.cur
      · rw [Pool.Destroy_checkedOut p h destroyed hl htok] at hd
        cases hd
        refine ⟨gomap.nodup_delete _ hw.nodup, hfresh, hdrained, ?_, ?_, hw.positive⟩
        · simp only [Bool.false_eq_true, ↓reduceIte] at hcount
          simp only [Pool.checkedOut]
          show p.sem.cur - 1 ≤ _
          omega
        · show p.sem.cur - 1 ≤ p.sem.size
          have := hw.bound
          omega
      · rw [Pool.Destroy_over p h destroyed hl (by omega)] at hd
        cases hd

theorem Pool.WF.after_Close {p : Pool T} (hw : p.WF) {seed : List Nat}
    {destroyed : Handle T → Option Error} {r : Ret T (Option Error)}
    (hd : p.Close seed destroyed = .done r) : r.pool.WF := by
  rcases Bool.eq_false_or_eq_true p.closed with hc | hc
  · rw [Pool.Close_closed p seed destroyed hc] at hd
    cases hd
    exact hw
  · by_cases htok : p.checkedOut ≤ p.sem.cur
    · rw [Pool.Close_open p seed destroyed hc htok] at hd
      cases hd
      refine ⟨by simp, by simp, fun _ => rfl, ?_, ?_, hw.positive⟩
      · show p.sem.cur - p.checkedOut ≤ _
        have := hw.held
        omega
      · show p.sem.cur - p.checkedOut ≤ p.sem.size
        have := hw.bound
        omega
    · rw [Pool.Close_over p seed destroyed hc (by omega)] at hd
      cases hd

theorem Pool.WF.of_NewPool {capacity : Int} {p : Pool T} (h : NewPool capacity = .ok p) :
    p.WF := by
  unfold resource.NewPool at h
  split at h
  · cases h
  · rename_i hcap
    cases h
    refine ⟨by simp [smap.Make], by simp [smap.Make], fun _ => rfl, ?_, ?_, ?_⟩
    · simp [NewWeighted]
    · simp [NewWeighted]
    · simp only [NewWeighted]
      omega

theorem Pool.WF.after_step {p p' : Pool T} (hw : p.WF) {op : Op T} (h : p.step op = .done p') :
    p'.WF := by
  cases op with
  | Acquire ctx seed created =>
    simp only [Pool.step] at h
    split at h
    · rename_i r hr
      cases h
      exact hw.after_Acquire hr
    · cases h
    · cases h
  | Release k => exact hw.after_Release h
  | Destroy k destroyed =>
    simp only [Pool.step] at h
    split at h
    · rename_i r hr
      cases h
      exact hw.after_Destroy hr
    · cases h
    · cases h
  | Close seed destroyed =>
    simp only [Pool.step] at h
    split at h
    · rename_i r hr
      cases h
      exact hw.after_Close hr
    · cases h
    · cases h

theorem Pool.WF.after_run {ops : List (Op T)} : ∀ {p p' : Pool T}, p.WF → p.run ops = .done p' →
    p'.WF := by
  induction ops with
  | nil => intro p p' hw h; simp only [Pool.run] at h; cases h; exact hw
  | cons op ops ih =>
    intro p p' hw h
    simp only [Pool.run] at h
    split at h
    · rename_i q hq
      exact ih (hw.after_step hq) h
    · cases h
    · cases h

/-- Every pool that calls bring a new pool to is well formed. -/
theorem Pool.WF.reach {capacity : Int} {p0 p : Pool T} {ops : List (Op T)}
    (hnew : NewPool capacity = .ok p0) (hrun : p0.run ops = .done p) : p.WF :=
  (Pool.WF.of_NewPool hnew).after_run hrun

theorem Pool.run_append {a b : List (Op T)} : ∀ {p q : Pool T},
    p.run (a ++ b) = .done q → ∃ m, p.run a = .done m ∧ m.run b = .done q := by
  induction a with
  | nil => intro p q h; exact ⟨p, rfl, h⟩
  | cons op a ih =>
    intro p q h
    simp only [List.cons_append, Pool.run] at h ⊢
    split at h
    · exact ih h
    · cases h
    · cases h

/-- What a returning call leaves of the entry of a handle, of the `closed`
flag and of the allocation counter. -/
theorem Pool.step_effect {p p' : Pool T} {op : Op T} (hw : p.WF) (hs : p.step op = .done p') :
    p.allocated ≤ p'.allocated ∧ (p.closed = true → p'.closed = true) ∧
    (∀ h : Handle T, gomap.lookup p.items.m h = none → h.addr < p.allocated →
      gomap.lookup p'.items.m h = none) ∧
    (∀ h : Handle T, gomap.lookup p.items.m h = some false → op.frees h = false →
      gomap.lookup p'.items.m h = some false) := by
  cases op with
  | Acquire ctx seed created =>
    simp only [Pool.step] at hs
    split at hs
    · rename_i r hr
      cases hs
      rcases Pool.Acquire_done_cases hr with ⟨hp, _, _⟩ | ⟨existing, hmem, _, hc, rfl⟩ |
        ⟨x, _, _, hc, _, rfl⟩
      · rw [hp]; exact ⟨Nat.le_refl _, id, fun _ h _ => h, fun _ h _ => h⟩
      · refine ⟨Nat.le_refl _, fun h => by simp [hc] at h, ?_, ?_⟩
        · intro h hn _
          have hne : h ≠ existing := by
            rintro rfl
            rw [gomap.lookup_of_mem hw.nodup hmem] at hn
            cases hn
          show gomap.lookup (gomap.assign p.items.m existing false) h = none
          rw [gomap.lookup_assign, if_neg hne, hn]
        · intro h hf _
          show gomap.lookup (gomap.assign p.items.m existing false) h = some false
          rw [gomap.lookup_assign]
          split
          · rfl
          · exact hf
      · refine ⟨Nat.le_succ _, fun h => by simp [hc] at h, ?_, ?_⟩
        · intro h hn hlt
          have hne : h ≠ ⟨p.allocated, x⟩ := by
            rintro rfl
            exact Nat.lt_irrefl _ hlt
          show gomap.lookup (gomap.assign p.items.m ⟨p.allocated, x⟩ false) h = none
          rw [gomap.lookup_assign, if_neg hne, hn]
        · intro h hf _
          show gomap.lookup (gomap.assign p.items.m ⟨p.allocated, x⟩ false) h = some false
          rw [gomap.lookup_assign]
          split
          · rfl
          · exact hf
    · cases hs
    · cases hs
  | Release k =>
    simp only [Pool.step] at hs
    cases hl : gomap.lookup p.items.m k with
    | none =>
      rw [Pool.Release_absent p k hl] at hs
      cases hs
      exact ⟨Nat.le_refl _, id, fun _ h _ => h, fun _ h _ => h⟩
    | some w =>
      by_cases htok : 1 ≤ p.sem.cur
      · rw [Pool.Release_present p k w hl htok] at hs
        cases hs
        refine ⟨Nat.le_refl _, id, ?_, ?_⟩
        · intro h hn _
          have hne : h ≠ k := by
            rintro rfl
            rw [hl] at hn
            cases hn
          show gomap.lookup (gomap.assign p.items.m k true) h = none
          rw [gomap.lookup_assign, if_neg hne, hn]
        · intro h hf hfree
          have hne : h ≠ k := by
            rintro rfl
            simp [Op.frees] at hfree
          show gomap.lookup (gomap.assign p.items.m k true) h = some false
          rw [gomap.lookup_assign, if_neg hne, hf]
      · rw [Pool.Release_over p k w hl (by omega)] at hs
        cases hs
  | Destroy k destroyed =>
    simp only [Pool.step] at hs
    split at hs
    · rename_i r hr
      cases hs
      have hitems : r.pool.items.m = gomap.delete p.items.m k ∧ r.pool.allocated = p.allocated ∧
          r.pool.closed = p.closed := by
        cases hl : gomap.lookup p.items.m k with
        | none =>
          rw [Pool.Destroy_absent p k destroyed hl] at hr
          cases hr
          exact ⟨(gomap.delete_of_lookup_none hl).symm, rfl, rfl⟩
        | some w =>
          cases w with
          | true =>
            rw [Pool.Destroy_available p k destroyed hl] at hr
            cases hr
            exact ⟨rfl, rfl, rfl⟩
          | false =>
            by_cases htok : 1 ≤ p.sem.cur
            · rw [Pool.Destroy_checkedOut p k destroyed hl htok] at hr
              cases hr
              exact ⟨rfl, rfl, rfl⟩
            · rw [Pool.Destroy_over p k destroyed hl (by omega)] at hr
              cases hr
      obtain ⟨h1, h2, h3⟩ := hitems
      refine ⟨by rw [h2], by rw [h3]; exact id, ?_, ?_⟩
      · intro h hn _
        rw [h1, gomap.lookup_delete, hn]
        simp
      · intro h hf hfree
        have hne : h ≠ k := by
          rintro rfl
          simp [Op.frees] at hfree
        rw [h1, gomap.lookup_delete, if_neg hne, hf]
    · cases hs
    · cases hs
  | Close seed destroyed =>
    simp only [Pool.step] at hs
    split at hs
    · rename_i r hr
      cases hs
      rcases Bool.eq_false_or_eq_true p.closed with hc | hc
      · rw [Pool.Close_closed p seed destroyed hc] at hr
        cases hr
        exact ⟨Nat.le_refl _, id, fun _ h _ => h, fun _ h _ => h⟩
      · by_cases htok : p.checkedOut ≤ p.sem.cur
        · rw [Pool.Close_open p seed destroyed hc htok] at hr
          cases hr
          exact ⟨Nat.le_refl _, fun _ => rfl, fun _ _ _ => rfl,
            fun _ _ hfree => by simp [Op.frees] at hfree⟩
        · rw [Pool.Close_over p seed destroyed hc (by omega)] at hr
          cases hr
    · cases hs
    · cases hs

/-- The effect of a returning sequence of calls: `step_effect` along the run. -/
theorem Pool.run_effect {ops : List (Op T)} : ∀ {p p' : Pool T}, p.WF →
    p.run ops = .done p' →
    p.allocated ≤ p'.allocated ∧ (p.closed = true → p'.closed = true) ∧
    (∀ h : Handle T, gomap.lookup p.items.m h = none → h.addr < p.allocated →
      gomap.lookup p'.items.m h = none) ∧
    (∀ h : Handle T, gomap.lookup p.items.m h = some false → (∀ op ∈ ops, op.frees h = false) →
      gomap.lookup p'.items.m h = some false) := by
  induction ops with
  | nil =>
    intro p p' _ h
    simp only [Pool.run] at h
    cases h
    exact ⟨Nat.le_refl _, id, fun _ h _ => h, fun _ h _ => h⟩
  | cons op ops ih =>
    intro p p' hw h
    simp only [Pool.run] at h
    split at h
    · rename_i q hq
      obtain ⟨a1, a2, a3, a4⟩ := Pool.step_effect hw hq
      obtain ⟨b1, b2, b3, b4⟩ := ih (hw.after_step hq) h
      refine ⟨Nat.le_trans a1 b1, fun hc => b2 (a2 hc), ?_, ?_⟩
      · intro k hn hlt
        exact b3 k (a3 k hn hlt) (Nat.lt_of_lt_of_le hlt a1)
      · intro k hf hfree
        exact b4 k (a4 k hf (hfree op (List.mem_cons_self _ _)))
          (fun o ho => hfree o (List.mem_cons_of_mem _ ho))
    · cases h
    · cases h

/-! ## The claims about `Pool` -/

/-- C1, evaluated on the code: on a pool of capacity 2 the calls Acquire,
Acquire, Release(h1), Release(h1), Acquire, Acquire (h1 being the handle the
first Acquire returned) all return, and the pool then has three entries, all
three CHECKED_OUT, while only two tokens are held. -/
theorem capacity_exceeded_after_second_release :
    (NewPool 2 : Except Error (Pool Nat)) = .ok ⟨⟨[]⟩, ⟨2, 0⟩, false, 0⟩ ∧
    (⟨⟨[]⟩, ⟨2, 0⟩, false, 0⟩ : Pool Nat).Acquire .never [] (.ok 7) =
      .done ⟨⟨⟨[(⟨0, 7⟩, false)]⟩, ⟨2, 1⟩, false, 1⟩, (some ⟨0, 7⟩, none), [.create .never]⟩ ∧
    (⟨⟨[]⟩, ⟨2, 0⟩, false, 0⟩ : Pool Nat).run
        [.Acquire .never [] (.ok 7), .Acquire .never [] (.ok 8), .Release ⟨0, 7⟩,
         .Release ⟨0, 7⟩, .Acquire .never [] (.ok 9), .Acquire .never [] (.ok 9)] =
      .done ⟨⟨[(⟨0, 7⟩, false), (⟨1, 8⟩, false), (⟨2, 9⟩, false)]⟩, ⟨2, 2⟩, false, 3⟩ ∧
    (⟨⟨[(⟨0, 7⟩, false), (⟨1, 8⟩, false), (⟨2, 9⟩, false)]⟩, ⟨2, 2⟩, false, 3⟩ :
      Pool Nat).items.Len = 3 ∧
    (⟨⟨[(⟨0, 7⟩, false), (⟨1, 8⟩, false), (⟨2, 9⟩, false)]⟩, ⟨2, 2⟩, false, 3⟩ :
      Pool Nat).checkedOut = 3 :=
  ⟨rfl, rfl, rfl, rfl, rfl⟩

/-- C3: when every token of an open pool is held and the context of the caller
is done before a token is freed, Acquire returns a nil handle and an error that
wraps the error of the context, invokes no callback and leaves the pool as it
was (with a context that is never done the call waits for ever); after
Release of a checked-out handle a new Acquire returns a handle. -/
theorem acquire_cancelled_no_effect (p : Pool T) (h : Handle T) (err : Error)
    (seed : List Nat) (created : Except Error T)
    (hopen : p.closed = false) (hcap : 1 ≤ p.sem.size) (hfull : p.sem.cur = p.sem.size)
    (hout : gomap.lookup p.items.m h = some false) :
    p.Acquire (.expires err) seed created =
      .done { pool := p,
              result := (none, some (.wrapf "error while waiting for capacity: %w" err)),
              calls := [] } ∧
    errorsIs err (.wrapf "error while waiting for capacity: %w" err) = true ∧
    p.Acquire .never seed created = .blocked ∧
    ∃ p1, p.Release h = .done p1 ∧ p1.sem.cur + 1 = p.sem.cur ∧
      ∀ (ctx : Ctx) (seed2 : List Nat) (created2 : Except Error T),
        ∃ r h2, p1.Acquire ctx seed2 created2 = .done r ∧ r.result = (some h2, none) := by
  refine ⟨Pool.Acquire_full_expires p err seed created (by omega), errorsIs_wrapf _ _,
    Pool.Acquire_full_never p seed created (by omega),
    { p with items := { m := gomap.assign p.items.m h true },
             sem := { p.sem with cur := p.sem.cur - 1 } },
    Pool.Release_present p h false hout (by omega), ?_, ?_⟩
  · show p.sem.cur - 1 + 1 = p.sem.cur
    omega
  · intro ctx seed2 created2
    have hl : gomap.lookup (gomap.assign p.items.m h true) h = some true := by
      rw [gomap.lookup_assign, if_pos rfl]
    obtain ⟨k, hk⟩ := gomap.find_range_isSome seed2 (gomap.mem_of_lookup hl) rfl
    have hlt : p.sem.cur - 1 < p.sem.size := by omega
    exact ⟨_, k, Pool.Acquire_reuse
      { p with items := { m := gomap.assign p.items.m h true },
               sem := { p.sem with cur := p.sem.cur - 1 } }
      ctx seed2 created2 hlt hopen k true hk, rfl⟩

theorem acquire_cancelled_no_effect_witness :
    (1 : Nat) ≤ 1 ∧
    gomap.lookup [((⟨0, 7⟩ : Handle Nat), false)] ⟨0, 7⟩ = some false ∧
    (⟨⟨[(⟨0, 7⟩, false)]⟩, ⟨1, 1⟩, false, 1⟩ : Pool Nat).Acquire
        (.expires .DeadlineExceeded) [] (.ok 8) =
      .done { pool := ⟨⟨[(⟨0, 7⟩, false)]⟩, ⟨1, 1⟩, false, 1⟩,
              result := (none, some (.wrapf "error while waiting for capacity: %w"
                .DeadlineExceeded)),
              calls := [] } :=
  ⟨Nat.le_refl 1, rfl,
    (acquire_cancelled_no_effect (⟨⟨[(⟨0, 7⟩, false)]⟩, ⟨1, 1⟩, false, 1⟩ : Pool Nat) ⟨0, 7⟩
      .DeadlineExceeded [] (.ok 8) rfl (Nat.le_refl 1) rfl (by decide)).1⟩

/-- C4: once Close has returned on a pool created by NewPool, in every state
that later calls reach the map is empty and every Acquire returns a nil handle
and exactly ErrClosed, invokes no callback and leaves the pool, the held
tokens included, as it was. -/
theorem acquire_after_close (capacity : Int) (p0 p : Pool T) (pre post : List (Op T))
    (cseed : List Nat) (cdestroyed : Handle T → Option Error)
    (hnew : NewPool capacity = .ok p0)
    (hrun : p0.run (pre ++ Op.Close cseed cdestroyed :: post) = .done p)
    (ctx : Ctx) (seed : List Nat) (created : Except Error T) :
    p.closed = true ∧ p.items.m = [] ∧ p.sem.cur = 0 ∧
    p.Acquire ctx seed created =
      .done { pool := p, result := (none, some .ErrClosed), calls := [] } := by
  obtain ⟨q, hq, hrest⟩ := Pool.run_append hrun
  have hwq := Pool.WF.reach hnew hq
  simp only [Pool.run] at hrest
  split at hrest
  · rename_i q1 hq1
    have hwq1 := hwq.after_step hq1
    have hc1 : q1.closed = true := by
      simp only [Pool.step] at hq1
      split at hq1
      · rename_i r hr
        cases hq1
        rcases Bool.eq_false_or_eq_true q.closed with hc | hc
        · rw [Pool.Close_closed q cseed cdestroyed hc] at hr
          cases hr
          exact hc
        · by_cases htok : q.checkedOut ≤ q.sem.cur
          · rw [Pool.Close_open q cseed cdestroyed hc htok] at hr
            cases hr
            rfl
          · rw [Pool.Close_over q cseed cdestroyed hc (by omega)] at hr
            cases hr
      · cases hq1
      · cases hq1
    have hw := hwq1.after_run hrest
    have hc : p.closed = true := (Pool.run_effect hwq1 hrest).2.1 hc1
    have hm := hw.drained hc
    have hcur : p.sem.cur = 0 := by
      have := hw.held
      simp only [Pool.checkedOut, hm, List.countP_nil] at this
      omega
    have hpos := hw.positive
    exact ⟨hc, hm, hcur, Pool.Acquire_closed p ctx seed created (by omega) hc⟩
  · cases hrest
  · cases hrest

theorem acquire_after_close_witness :
    (NewPool 1 : Except Error (Pool Nat)) = .ok ⟨⟨[]⟩, ⟨1, 0⟩, false, 0⟩ ∧
    (⟨⟨[]⟩, ⟨1, 0⟩, false, 0⟩ : Pool Nat).run
        ([.Acquire .never [] (.ok 7)] ++ Op.Close [] (fun _ => none) :: [.Release ⟨0, 7⟩]) =
      .done ⟨⟨[]⟩, ⟨1, 0⟩, true, 1⟩ ∧
    (⟨⟨[]⟩, ⟨1, 0⟩, true, 1⟩ : Pool Nat).Acquire .never [] (.ok 8) =
      .done { pool := ⟨⟨[]⟩, ⟨1, 0⟩, true, 1⟩, result := (none, some .ErrClosed), calls := [] } :=
  ⟨rfl, rfl,
    (acquire_after_close 1 ⟨⟨[]⟩, ⟨1, 0⟩, false, 0⟩ ⟨⟨[]⟩, ⟨1, 0⟩, true, 1⟩
      [.Acquire .never [] (.ok 7)] [.Release ⟨0, 7⟩] [] (fun _ => none) (by rfl) (by rfl)
      .never [] (.ok 8)).2.2.2⟩

/-- C5: on an open pool with a free token and no AVAILABLE entry, when the
create callback fails with `err`, Acquire invokes it once, returns a nil handle
and an error that wraps `err`, and leaves the pool (every entry and the held
tokens) as it was. -/
theorem create_failure_keeps_capacity (p : Pool T) (ctx : Ctx) (seed : List Nat) (err : Error)
    (hopen : p.closed = false) (hfree : p.sem.cur < p.sem.size)
    (hnone : ∀ e ∈ p.items.m, e.2 = false) :
    p.Acquire ctx seed (.error err) =
      .done { pool := p,
              result := (none, some (.wrapf "failed to allocate new resource: %w" err)),
              calls := [.create ctx] } ∧
    errorsIs err (.wrapf "failed to allocate new resource: %w" err) = true := by
  refine ⟨Pool.Acquire_create_error p ctx seed err hfree hopen ?_, errorsIs_wrapf _ _⟩
  rw [List.find?_eq_none]
  intro e he
  simp [hnone e ((gomap.mem_range seed p.items.m e).1 he)]

theorem create_failure_keeps_capacity_witness :
    (1 : Nat) < 2 ∧
    (⟨⟨[(⟨0, 7⟩, false)]⟩, ⟨2, 1⟩, false, 1⟩ : Pool Nat).Acquire .never [] (.error (.other 5)) =
      .done { pool := ⟨⟨[(⟨0, 7⟩, false)]⟩, ⟨2, 1⟩, false, 1⟩,
              result := (none, some (.wrapf "failed to allocate new resource: %w" (.other 5))),
              calls := [.create .never] } :=
  ⟨by decide,
    (create_failure_keeps_capacity (⟨⟨[(⟨0, 7⟩, false)]⟩, ⟨2, 1⟩, false, 1⟩ : Pool Nat)
      .never [] (.other 5) rfl (by decide) (by decide)).1⟩

/-- C2: in every state that calls bring a new pool to, an Acquire that returns
a handle `h` returns one whose entry was AVAILABLE or absent just before and is
CHECKED_OUT just after; and when the calls that follow up to a later Acquire
hold no Release(h), no Destroy(h) and no Close, that later Acquire does not
return `h`. -/
theorem exclusive_checkout (capacity : Int) (p0 p : Pool T) (pre : List (Op T))
    (hnew : NewPool capacity = .ok p0) (hrun : p0.run pre = .done p)
    (ctx : Ctx) (seed : List Nat) (created : Except Error T)
    (r : Ret T (Option (Handle T) × Option Error)) (h : Handle T)
    (hacq : p.Acquire ctx seed created = .done r) (hh : r.result.1 = some h) :
    (gomap.lookup p.items.m h = some true ∨ gomap.lookup p.items.m h = none) ∧
    gomap.lookup r.pool.items.m h = some false ∧
    ∀ (mid : List (Op T)) (p2 : Pool T) (ctx2 : Ctx) (seed2 : List Nat)
      (created2 : Except Error T) (r2 : Ret T (Option (Handle T) × Option Error))
      (h2 : Handle T),
      (∀ op ∈ mid, op.frees h = false) → r.pool.run mid = .done p2 →
      p2.Acquire ctx2 seed2 created2 = .done r2 → r2.result.1 = some h2 → h2 ≠ h := by
  have hw := Pool.WF.reach hnew hrun
  have hwr := hw.after_Acquire hacq
  have hbefore_after :
      (gomap.lookup p.items.m h = some true ∨ gomap.lookup p.items.m h = none) ∧
      gomap.lookup r.pool.items.m h = some false := by
    rcases Pool.Acquire_done_cases hacq with ⟨_, hn, _⟩ | ⟨existing, hmem, _, _, rfl⟩ |
      ⟨x, _, _, _, _, rfl⟩
    · rw [hn] at hh
      cases hh
    · cases hh
      refine ⟨Or.inl (gomap.lookup_of_mem hw.nodup hmem), ?_⟩
      show gomap.lookup (gomap.assign p.items.m h false) h = some false
      rw [gomap.lookup_assign, if_pos rfl]
    · cases hh
      refine ⟨Or.inr (hw.lookup_fresh x), ?_⟩
      show gomap.lookup (gomap.assign p.items.m ⟨p.allocated, x⟩ false) _ = some false
      rw [gomap.lookup_assign, if_pos rfl]
  refine ⟨hbefore_after.1, hbefore_after.2, ?_⟩
  intro mid p2 ctx2 seed2 created2 r2 h2 hfree hmid hacq2 hh2
  have hw2 := hwr.after_run hmid
  have hout : gomap.lookup p2.items.m h = some false :=
    (Pool.run_effect hwr hmid).2.2.2 h hbefore_after.2 hfree
  rcases Pool.Acquire_done_cases hacq2 with ⟨_, hn, _⟩ | ⟨existing, hmem, _, _, rfl⟩ |
    ⟨x, _, _, _, _, rfl⟩
  · rw [hn] at hh2
    cases hh2
  · cases hh2
    rintro rfl
    rw [gomap.lookup_of_mem hw2.nodup hmem] at hout
    cases hout
  · cases hh2
    rintro rfl
    rw [hw2.lookup_fresh x] at hout
    cases hout

theorem exclusive_checkout_witness :
    (NewPool 2 : Except Error (Pool Nat)) = .ok ⟨⟨[]⟩, ⟨2, 0⟩, false, 0⟩ ∧
    (⟨⟨[]⟩, ⟨2, 0⟩, false, 0⟩ : Pool Nat).run [] = .done ⟨⟨[]⟩, ⟨2, 0⟩, false, 0⟩ ∧
    (⟨⟨[]⟩, ⟨2, 0⟩, false, 0⟩ : Pool Nat).Acquire .never [] (.ok 7) =
      .done ⟨⟨⟨[(⟨0, 7⟩, false)]⟩, ⟨2, 1⟩, false, 1⟩, (some ⟨0, 7⟩, none), [.create .never]⟩ ∧
    gomap.lookup [((⟨0, 7⟩ : Handle Nat), false)] ⟨0, 7⟩ = some false :=
  ⟨rfl, rfl, rfl,
    (exclusive_checkout 2 ⟨⟨[]⟩, ⟨2, 0⟩, false, 0⟩ ⟨⟨[]⟩, ⟨2, 0⟩, false, 0⟩ [] (by rfl) (by rfl)
      .never [] (.ok 7)
      ⟨⟨⟨[(⟨0, 7⟩, false)]⟩, ⟨2, 1⟩, false, 1⟩, (some ⟨0, 7⟩, none), [.create .never]⟩
      ⟨0, 7⟩ (by rfl) (by rfl)).2.1⟩

/-- C8, evaluated on the code: on a pool of capacity 1, after Acquire returned
`h` and Release(h) returned, a second Release(h) panics in the semaphore; on a
pool of capacity 2 with a second handle checked out, the second Release(h)
returns and takes the held tokens from 1 to 0. -/
theorem second_release_gives_back_a_token :
    (⟨⟨[]⟩, ⟨1, 0⟩, false, 0⟩ : Pool Nat).run [.Acquire .never [] (.ok 7), .Release ⟨0, 7⟩] =
      .done ⟨⟨[(⟨0, 7⟩, true)]⟩, ⟨1, 0⟩, false, 1⟩ ∧
    (⟨⟨[(⟨0, 7⟩, true)]⟩, ⟨1, 0⟩, false, 1⟩ : Pool Nat).Release ⟨0, 7⟩ = .panicked ∧
    (⟨⟨[]⟩, ⟨2, 0⟩, false, 0⟩ : Pool Nat).run
        [.Acquire .never [] (.ok 7), .Acquire .never [] (.ok 8), .Release ⟨0, 7⟩] =
      .done ⟨⟨[(⟨0, 7⟩, true), (⟨1, 8⟩, false)]⟩, ⟨2, 1⟩, false, 2⟩ ∧
    (⟨⟨[(⟨0, 7⟩, true), (⟨1, 8⟩, false)]⟩, ⟨2, 1⟩, false, 2⟩ : Pool Nat).Release ⟨0, 7⟩ =
      .done ⟨⟨[(⟨0, 7⟩, true), (⟨1, 8⟩, false)]⟩, ⟨2, 0⟩, false, 2⟩ :=
  ⟨rfl, rfl, rfl, rfl⟩

/-- C9: once Destroy(h) has removed `h` from a pool, in every state that later
calls reach `h` has no entry, no Acquire returns `h`, Release(h) returns
leaving the pool as it was, and Destroy(h) returns nil, invokes no callback and
leaves the pool as it was. -/
theorem destroyed_handle_is_dead (capacity : Int) (p0 p : Pool T) (pre : List (Op T))
    (hnew : NewPool capacity = .ok p0) (hrun : p0.run pre = .done p)
    (h : Handle T) (available : Bool) (destroyed : Option Error) (r : Ret T (Option Error))
    (hl : gomap.lookup p.items.m h = some available)
    (hd : p.Destroy h destroyed = .done r)
    (post : List (Op T)) (q : Pool T) (hpost : r.pool.run post = .done q) :
    gomap.lookup q.items.m h = none ∧
    (∀ (ctx : Ctx) (seed : List Nat) (created : Except Error T)
        (r2 : Ret T (Option (Handle T) × Option Error)),
      q.Acquire ctx seed created = .done r2 → r2.result.1 ≠ some h) ∧
    q.Release h = .done q ∧
    ∀ destroyed2 : Option Error,
      q.Destroy h destroyed2 = .done { pool := q, result := none, calls := [] } := by
  have hw := Pool.WF.reach hnew hrun
  have hstep : p.step (.Destroy h destroyed) = .done r.pool := by
    simp [Pool.step, hd]
  have hwr := hw.after_step hstep
  have hlt : h.addr < p.allocated := hw.fresh _ (gomap.mem_of_lookup hl)
  have hgone : gomap.lookup r.pool.items.m h = none ∧ h.addr < r.pool.allocated := by
    cases available with
    | true =>
      rw [Pool.Destroy_available p h destroyed hl] at hd
      cases hd
      refine ⟨?_, hlt⟩
      show gomap.lookup (gomap.delete p.items.m h) h = none
      rw [gomap.lookup_delete, if_pos rfl]
    | false =>
      by_cases htok : 1 ≤ p.sem.cur
      · rw [Pool.Destroy_checkedOut p h destroyed hl htok] at hd
        cases hd
        refine ⟨?_, hlt⟩
        show gomap.lookup (gomap.delete p.items.m h) h = none
        rw [gomap.lookup_delete, if_pos rfl]
      · rw [Pool.Destroy_over p h destroyed hl (by omega)] at hd
        cases hd
  have hwq := hwr.after_run hpost
  obtain ⟨hmono, _, hnone, _⟩ := Pool.run_effect hwr hpost
  have hq : gomap.lookup q.items.m h = none := hnone h hgone.1 hgone.2
  have hqlt : h.addr < q.allocated := Nat.lt_of_lt_of_le hgone.2 hmono
  refine ⟨hq, ?_, Pool.Release_absent q h hq, fun d2 => Pool.Destroy_absent q h d2 hq⟩
  intro ctx seed created r2 hacq hh
  rcases Pool.Acquire_done_cases hacq with ⟨_, hn, _⟩ | ⟨existing, hmem, _, _, rfl⟩ |
    ⟨x, _, _, _, _, rfl⟩
  · rw [hn] at hh
    cases hh
  · cases hh
    rw [gomap.lookup_of_mem hwq.nodup hmem] at hq
    cases hq
  · cases hh
    exact Nat.lt_irrefl _ hqlt

theorem destroyed_handle_is_dead_witness :
    (NewPool 1 : Except Error (Pool Nat)) = .ok ⟨⟨[]⟩, ⟨1, 0⟩, false, 0⟩ ∧
    (⟨⟨[]⟩, ⟨1, 0⟩, false, 0⟩ : Pool Nat).run [.Acquire .never [] (.ok 7)] =
      .done ⟨⟨[(⟨0, 7⟩, false)]⟩, ⟨1, 1⟩, false, 1⟩ ∧
    (⟨⟨[(⟨0, 7⟩, false)]⟩, ⟨1, 1⟩, false, 1⟩ : Pool Nat).Destroy ⟨0, 7⟩ (some (.other 3)) =
      .done ⟨⟨⟨[]⟩, ⟨1, 0⟩, false, 1⟩, some (.other 3), [.destroy 7]⟩ ∧
    (⟨⟨[]⟩, ⟨1, 0⟩, false, 1⟩ : Pool Nat).run [.Acquire .never [] (.ok 8)] =
      .done ⟨⟨[(⟨1, 8⟩, false)]⟩, ⟨1, 1⟩, false, 2⟩ ∧
    (⟨⟨[(⟨1, 8⟩, false)]⟩, ⟨1, 1⟩, false, 2⟩ : Pool Nat).Release ⟨0, 7⟩ =
      .done ⟨⟨[(⟨1, 8⟩, false)]⟩, ⟨1, 1⟩, false, 2⟩ :=
  ⟨rfl, rfl, rfl, rfl,
    (destroyed_handle_is_dead 1 ⟨⟨[]⟩, ⟨1, 0⟩, false, 0⟩ ⟨⟨[(⟨0, 7⟩, false)]⟩, ⟨1, 1⟩, false, 1⟩
      [.Acquire .never [] (.ok 7)] (by rfl) (by rfl) ⟨0, 7⟩ false (some (.other 3))
      ⟨⟨⟨[]⟩, ⟨1, 0⟩, false, 1⟩, some (.other 3), [.destroy 7]⟩ (by decide) (by rfl)
      [.Acquire .never [] (.ok 8)] ⟨⟨[(⟨1, 8⟩, false)]⟩, ⟨1, 1⟩, false, 2⟩ (by rfl)).2.2.1⟩

theorem Pool.TokensMatch.held_pos {p : Pool T} (htok : p.TokensMatch) {h : Handle T}
    (hout : gomap.lookup p.items.m h = some false) : 1 ≤ p.sem.cur := by
  have hpos : 0 < p.items.m.countP (fun e => !e.2) :=
    List.countP_pos_iff.2 ⟨(h, false), gomap.mem_of_lookup hout, rfl⟩
  have := htok.1
  simp only [Pool.checkedOut] at this
  omega

/-- Destroy on a pool that holds a token for the entry: for a handle `h` with an
entry in the map (a token being held when the entry is CHECKED_OUT), Destroy(h)
returns; it invokes the destroy callback once,
on the resource of `h`, and returns what the callback returned, nil or an error
alike; the entry of `h` is gone and every other entry is as before; the held
tokens go down by one when the entry was CHECKED_OUT and stay when it was
AVAILABLE. -/
theorem destroy_cleans_up (p : Pool T) (h : Handle T) (available : Bool)
    (destroyed : Option Error)
    (hl : gomap.lookup p.items.m h = some available)
    (htok : available = false → 1 ≤ p.sem.cur) :
    ∃ r, p.Destroy h destroyed = .done r ∧
      r.calls = [.destroy h.resource] ∧ r.result = destroyed ∧
      r.pool.items.m = p.items.m.filter (fun e => decide (e.1 ≠ h)) ∧
      gomap.lookup r.pool.items.m h = none ∧
      (∀ k, k ≠ h → gomap.lookup r.pool.items.m k = gomap.lookup p.items.m k) ∧
      r.pool.sem.size = p.sem.size ∧
      r.pool.sem.cur + (if available then 0 else 1) = p.sem.cur ∧
      r.pool.closed = p.closed ∧ r.pool.allocated = p.allocated := by
  have hgone : gomap.lookup (gomap.delete p.items.m h) h = none := by
    rw [gomap.lookup_delete, if_pos rfl]
  have hrest : ∀ k, k ≠ h →
      gomap.lookup (gomap.delete p.items.m h) k = gomap.lookup p.items.m k := by
    intro k hk
    rw [gomap.lookup_delete, if_neg hk]
  cases available with
  | true =>
    exact ⟨_, Pool.Destroy_available p h destroyed hl, rfl, rfl, rfl, hgone, hrest, rfl, rfl,
      rfl, rfl⟩
  | false =>
    have h1 : 1 ≤ p.sem.cur := htok rfl
    refine ⟨_, Pool.Destroy_checkedOut p h destroyed hl h1, rfl, rfl, rfl, hgone, hrest, rfl,
      ?_, rfl, rfl⟩
    show p.sem.cur - 1 + (if false = true then 0 else 1) = p.sem.cur
    simp only [Bool.false_eq_true, if_false]
    omega

theorem destroy_cleans_up_witness :
    gomap.lookup [((⟨0, 7⟩ : Handle Nat), false), (⟨1, 8⟩, true)] ⟨0, 7⟩ = some false ∧
    (false = false → 1 ≤ 1) ∧
    ∃ r, (⟨⟨[(⟨0, 7⟩, false), (⟨1, 8⟩, true)]⟩, ⟨2, 1⟩, false, 2⟩ : Pool Nat).Destroy ⟨0, 7⟩
          (some (.other 3)) = .done r ∧
      r.calls = [.destroy 7] ∧ r.result = some (.other 3) :=
  ⟨by decide, fun _ => Nat.le_refl 1,
    let ⟨r, h1, h2, h3, _⟩ :=
      destroy_cleans_up (⟨⟨[(⟨0, 7⟩, false), (⟨1, 8⟩, true)]⟩, ⟨2, 1⟩, false, 2⟩ : Pool Nat)
        ⟨0, 7⟩ false (some (.other 3)) (by decide) (fun _ => Nat.le_refl 1)
    ⟨r, h1, h2, h3⟩⟩

/-- C6 as stated fails: on a pool of capacity 2 where `h1` is checked out and
`h2` is AVAILABLE, after Release(h1) the next Acquire, visiting the entry of
`h2` first, returns `h2` and not `h1`. -/
theorem idle_reuse_other_handle :
    (NewPool 2 : Except Error (Pool Nat)) = .ok ⟨⟨[]⟩, ⟨2, 0⟩, false, 0⟩ ∧
    (⟨⟨[]⟩, ⟨2, 0⟩, false, 0⟩ : Pool Nat).run
        [.Acquire .never [] (.ok 7), .Acquire .never [] (.ok 8), .Release ⟨1, 8⟩] =
      .done ⟨⟨[(⟨0, 7⟩, false), (⟨1, 8⟩, true)]⟩, ⟨2, 1⟩, false, 2⟩ ∧
    (⟨⟨[(⟨0, 7⟩, false), (⟨1, 8⟩, true)]⟩, ⟨2, 1⟩, false, 2⟩ : Pool Nat).Release ⟨0, 7⟩ =
      .done ⟨⟨[(⟨0, 7⟩, true), (⟨1, 8⟩, true)]⟩, ⟨2, 0⟩, false, 2⟩ ∧
    (⟨⟨[(⟨0, 7⟩, true), (⟨1, 8⟩, true)]⟩, ⟨2, 0⟩, false, 2⟩ : Pool Nat).Acquire .never [1]
        (.ok 9) =
      .done ⟨⟨⟨[(⟨0, 7⟩, true), (⟨1, 8⟩, false)]⟩, ⟨2, 1⟩, false, 2⟩, (some ⟨1, 8⟩, none), []⟩ ∧
    (⟨1, 8⟩ : Handle Nat) ≠ ⟨0, 7⟩ :=
  ⟨rfl, rfl, rfl, rfl, by decide⟩

/-- C6, amended: on an open pool whose held tokens are as many as its
CHECKED_OUT entries, after Release(h) of a checked-out handle `h` the next
Acquire returns a handle whose entry was AVAILABLE, without invoking the create
callback; it returns `h` itself when no other entry was AVAILABLE. -/
theorem idle_reuse (p : Pool T) (h : Handle T)
    (hopen : p.closed = false) (htok : p.TokensMatch)
    (hout : gomap.lookup p.items.m h = some false) :
    ∃ p1, p.Release h = .done p1 ∧ gomap.lookup p1.items.m h = some true ∧
      ∀ (ctx : Ctx) (seed : List Nat) (created : Except Error T),
        ∃ r h2, p1.Acquire ctx seed created = .done r ∧ r.result = (some h2, none) ∧
          r.calls = [] ∧ (h2, true) ∈ p1.items.m ∧
          ((∀ e ∈ p.items.m, e.1 ≠ h → e.2 = false) → h2 = h) := by
  have h1 : 1 ≤ p.sem.cur := htok.held_pos hout
  have hle := htok.2
  have hl : gomap.lookup (gomap.assign p.items.m h true) h = some true := by
    rw [gomap.lookup_assign, if_pos rfl]
  refine ⟨{ p with items := { m := gomap.assign p.items.m h true },
                   sem := { p.sem with cur := p.sem.cur - 1 } },
    Pool.Release_present p h false hout h1, hl, ?_⟩
  intro ctx seed created
  obtain ⟨k, hk⟩ := gomap.find_range_isSome seed (gomap.mem_of_lookup hl) rfl
  have hlt : p.sem.cur - 1 < p.sem.size := by omega
  have hmem : (k, true) ∈ gomap.assign p.items.m h true := (gomap.find_range_some hk).2
  refine ⟨_, k, Pool.Acquire_reuse
      { p with items := { m := gomap.assign p.items.m h true },
               sem := { p.sem with cur := p.sem.cur - 1 } }
      ctx seed created hlt hopen k true hk, rfl, rfl, hmem, ?_⟩
  intro hothers
  rcases gomap.mem_assign hmem with he | he
  · exact congrArg Prod.fst he
  · by_contra hne
    have := hothers _ he hne
    cases this

theorem idle_reuse_witness :
    (⟨⟨[(⟨0, 7⟩, false), (⟨1, 8⟩, false)]⟩, ⟨2, 2⟩, false, 2⟩ : Pool Nat).TokensMatch ∧
    ∃ p1, (⟨⟨[(⟨0, 7⟩, false), (⟨1, 8⟩, false)]⟩, ⟨2, 2⟩, false, 2⟩ : Pool Nat).Release ⟨0, 7⟩ =
        .done p1 ∧ gomap.lookup p1.items.m ⟨0, 7⟩ = some true :=
  ⟨⟨rfl, by decide⟩,
    let ⟨p1, h1, h2, _⟩ :=
      idle_reuse (⟨⟨[(⟨0, 7⟩, false), (⟨1, 8⟩, false)]⟩, ⟨2, 2⟩, false, 2⟩ : Pool Nat) ⟨0, 7⟩
        rfl ⟨rfl, by decide⟩ (by decide)
    ⟨p1, h1, h2⟩⟩

/-- C7 as stated fails: on a pool of capacity 2 where `h1` is checked out and
`h2` is AVAILABLE, after Destroy(h1) the next Acquire does not invoke the
create callback and returns `h2`, which wraps the resource made earlier. -/
theorem destroy_then_acquire_reuses :
    (NewPool 2 : Except Error (Pool Nat)) = .ok ⟨⟨[]⟩, ⟨2, 0⟩, false, 0⟩ ∧
    (⟨⟨[]⟩, ⟨2, 0⟩, false, 0⟩ : Pool Nat).run
        [.Acquire .never [] (.ok 7), .Acquire .never [] (.ok 8), .Release ⟨1, 8⟩] =
      .done ⟨⟨[(⟨0, 7⟩, false), (⟨1, 8⟩, true)]⟩, ⟨2, 1⟩, false, 2⟩ ∧
    (⟨⟨[(⟨0, 7⟩, false), (⟨1, 8⟩, true)]⟩, ⟨2, 1⟩, false, 2⟩ : Pool Nat).Destroy ⟨0, 7⟩ none =
      .done ⟨⟨⟨[(⟨1, 8⟩, true)]⟩, ⟨2, 0⟩, false, 2⟩, none, [.destroy 7]⟩ ∧
    (⟨⟨[(⟨1, 8⟩, true)]⟩, ⟨2, 0⟩, false, 2⟩ : Pool Nat).Acquire .never [] (.ok 9) =
      .done ⟨⟨⟨[(⟨1, 8⟩, false)]⟩, ⟨2, 1⟩, false, 2⟩, (some ⟨1, 8⟩, none), []⟩ :=
  ⟨rfl, rfl, rfl, rfl⟩

/-- C7, amended: in a state that calls bring a new pool to, open and with as
many held tokens as CHECKED_OUT entries, after Destroy(h) of a checked-out
handle `h` the next Acquire returns and never returns `h`.  When no entry is
AVAILABLE it invokes the create callback exactly once and, when that succeeds,
returns a newly allocated handle wrapping the resource just created; when some
entry is AVAILABLE it invokes no callback and returns such an entry. -/
theorem destroy_then_acquire (capacity : Int) (p0 p : Pool T) (pre : List (Op T))
    (hnew : NewPool capacity = .ok p0) (hrun : p0.run pre = .done p)
    (h : Handle T) (destroyed : Option Error)
    (hopen : p.closed = false) (htok : p.TokensMatch)
    (hout : gomap.lookup p.items.m h = some false) :
    ∃ r1, p.Destroy h destroyed = .done r1 ∧
      ∀ (ctx : Ctx) (seed : List Nat) (created : Except Error T),
        ∃ r, r1.pool.Acquire ctx seed created = .done r ∧ r.result.1 ≠ some h ∧
          ((∀ e ∈ r1.pool.items.m, e.2 = false) →
            r.calls = [.create ctx] ∧
            ∀ x, created = .ok x →
              r.result = (some ⟨r1.pool.allocated, x⟩, none) ∧
              gomap.lookup r1.pool.items.m ⟨r1.pool.allocated, x⟩ = none) ∧
          ((∃ e ∈ r1.pool.items.m, e.2 = true) →
            r.calls = [] ∧ ∃ h2, r.result = (some h2, none) ∧ (h2, true) ∈ r1.pool.items.m) := by
  have hw := Pool.WF.reach hnew hrun
  have h1 : 1 ≤ p.sem.cur := htok.held_pos hout
  have hle := htok.2
  have hd := Pool.Destroy_checkedOut p h destroyed hout h1
  have hw1 := hw.after_Destroy hd
  refine ⟨_, hd, ?_⟩
  intro ctx seed created
  have hlt_addr : h.addr < p.allocated := hw.fresh _ (gomap.mem_of_lookup hout)
  have hgone : ∀ e ∈ gomap.delete p.items.m h, e.1 ≠ h := fun e he => (gomap.mem_delete.1 he).2
  have hlt : p.sem.cur - 1 < p.sem.size := by omega
  cases hf : (gomap.range seed (gomap.delete p.items.m h)).find? (fun e => e.2) with
  | some kb =>
    obtain ⟨k, b⟩ := kb
    have hmem : (k, true) ∈ gomap.delete p.items.m h := (gomap.find_range_some hf).2
    refine ⟨_, Pool.Acquire_reuse
        { p with items := { m := gomap.delete p.items.m h },
                 sem := { p.sem with cur := p.sem.cur - 1 } }
        ctx seed created hlt hopen k b hf, ?_, ?_, ?_⟩
    · intro hk
      exact hgone _ hmem (Option.some.inj hk)
    · intro hall
      have := hall _ hmem
      cases this
    · intro _
      exact ⟨rfl, k, rfl, hmem⟩
  | none =>
    have hall : ∀ e ∈ gomap.delete p.items.m h, e.2 = false := gomap.find_range_none hf
    cases created with
    | error err =>
      refine ⟨_, Pool.Acquire_create_error
          { p with items := { m := gomap.delete p.items.m h },
                   sem := { p.sem with cur := p.sem.cur - 1 } }
          ctx seed err hlt hopen hf, ?_, ?_, ?_⟩
      · intro hk
        cases hk
      · intro _
        exact ⟨rfl, fun x hx => by cases hx⟩
      · rintro ⟨e, he, ht⟩
        rw [hall e he] at ht
        cases ht
    | ok x =>
      refine ⟨_, Pool.Acquire_create_ok
          { p with items := { m := gomap.delete p.items.m h },
                   sem := { p.sem with cur := p.sem.cur - 1 } }
          ctx seed x hlt hopen hf, ?_, ?_, ?_⟩
      · intro hk
        have : (⟨p.allocated, x⟩ : Handle T) = h := Option.some.inj hk
        rw [← this] at hlt_addr
        exact Nat.lt_irrefl _ hlt_addr
      · intro _
        refine ⟨rfl, fun y hy => ?_⟩
        cases hy
        exact ⟨rfl, hw1.lookup_fresh x⟩
      · rintro ⟨e, he, ht⟩
        rw [hall e he] at ht
        cases ht

theorem destroy_then_acquire_witness :
    (NewPool 2 : Except Error (Pool Nat)) = .ok ⟨⟨[]⟩, ⟨2, 0⟩, false, 0⟩ ∧
    (⟨⟨[]⟩, ⟨2, 0⟩, false, 0⟩ : Pool Nat).run
        [.Acquire .never [] (.ok 7), .Acquire .never [] (.ok 8)] =
      .done ⟨⟨[(⟨0, 7⟩, false), (⟨1, 8⟩, false)]⟩, ⟨2, 2⟩, false, 2⟩ ∧
    (⟨⟨[(⟨0, 7⟩, false), (⟨1, 8⟩, false)]⟩, ⟨2, 2⟩, false, 2⟩ : Pool Nat).TokensMatch ∧
    ∃ r1, (⟨⟨[(⟨0, 7⟩, false), (⟨1, 8⟩, false)]⟩, ⟨2, 2⟩, false, 2⟩ : Pool Nat).Destroy ⟨0, 7⟩
        none = .done r1 :=
  ⟨rfl, rfl, ⟨rfl, by decide⟩,
    let ⟨r1, h1, _⟩ :=
      destroy_then_acquire 2 ⟨⟨[]⟩, ⟨2, 0⟩, false, 0⟩
        (⟨⟨[(⟨0, 7⟩, false), (⟨1, 8⟩, false)]⟩, ⟨2, 2⟩, false, 2⟩ : Pool Nat)
        [.Acquire .never [] (.ok 7), .Acquire .never [] (.ok 8)] (by rfl) (by rfl)
        ⟨0, 7⟩ none rfl ⟨rfl, by decide⟩ (by decide)
    ⟨r1, h1⟩⟩

/-- Close on a pool that holds its tokens: the first Close on an open pool
(holding a token for every CHECKED_OUT entry) returns; the pool is then CLOSED with an empty map; the destroy callback
has been invoked once for every entry that was in the map, on its resource,
whatever the callback returned for the entries before it; and the held tokens
have gone down by the number of entries that were CHECKED_OUT. -/
theorem close_drains (p : Pool T) (seed : List Nat) (destroyed : Handle T → Option Error)
    (hopen : p.closed = false) (htok : p.checkedOut ≤ p.sem.cur) :
    ∃ r, p.Close seed destroyed = .done r ∧
      r.pool.closed = true ∧ r.pool.items.m = [] ∧
      r.calls = (gomap.range seed p.items.m).map (fun e => Call.destroy e.1.resource) ∧
      r.calls.Perm (p.items.m.map (fun e => Call.destroy e.1.resource)) ∧
      r.pool.sem.cur + p.checkedOut = p.sem.cur ∧ r.pool.sem.size = p.sem.size ∧
      r.pool.allocated = p.allocated := by
  refine ⟨_, Pool.Close_open p seed destroyed hopen htok, rfl, rfl, rfl,
    (gomap.range_perm seed p.items.m).map _, ?_, rfl, rfl⟩
  show p.sem.cur - p.checkedOut + p.checkedOut = p.sem.cur
  omega

theorem close_drains_witness :
    (⟨⟨[(⟨0, 7⟩, false), (⟨1, 8⟩, true)]⟩, ⟨2, 1⟩, false, 2⟩ : Pool Nat).checkedOut ≤ 1 ∧
    ∃ r, (⟨⟨[(⟨0, 7⟩, false), (⟨1, 8⟩, true)]⟩, ⟨2, 1⟩, false, 2⟩ : Pool Nat).Close [1]
          (fun h => if h.addr = 1 then some (.other 3) else none) = .done r ∧
      r.pool.closed = true ∧ r.pool.items.m = [] ∧
      r.calls = [.destroy 8, .destroy 7] :=
  ⟨by decide,
    let ⟨r, h1, h2, h3, h4, _⟩ :=
      close_drains (⟨⟨[(⟨0, 7⟩, false), (⟨1, 8⟩, true)]⟩, ⟨2, 1⟩, false, 2⟩ : Pool Nat) [1]
        (fun h => if h.addr = 1 then some (.other 3) else none) rfl (by decide)
    ⟨r, h1, h2, h3, h4⟩⟩

/-- The result of Close on a pool that holds its tokens: Close returns (a token
being held for every CHECKED_OUT entry of an open pool).  Its result is nil exactly when the pool was already closed or the
destroy callback returned nil for every entry; otherwise it is one joined error
made of exactly the errors the callback returned, each of which `errors.Is`
finds in it.  On a pool already closed it invokes no callback and leaves the
pool as it was. -/
theorem close_result (p : Pool T) (seed : List Nat) (destroyed : Handle T → Option Error)
    (htok : p.closed = false → p.checkedOut ≤ p.sem.cur) :
    ∃ r, p.Close seed destroyed = .done r ∧
      (r.result = none ↔ (p.closed = true ∨ ∀ e ∈ p.items.m, destroyed e.1 = none)) ∧
      (p.closed = false → ∀ e ∈ p.items.m, ∀ err, destroyed e.1 = some err →
        ∃ es, r.result = some (.join es) ∧ errorsIs err (.join es) = true ∧
          ∀ x, x ∈ es ↔ ∃ e' ∈ p.items.m, destroyed e'.1 = some x) ∧
      (p.closed = true → r.pool = p ∧ r.calls = []) := by
  rcases Bool.eq_false_or_eq_true p.closed with hc | hc
  · refine ⟨_, Pool.Close_closed p seed destroyed hc, ?_, ?_, fun _ => ⟨rfl, rfl⟩⟩
    · exact ⟨fun _ => Or.inl hc, fun _ => rfl⟩
    · intro h
      rw [hc] at h
      cases h
  · have hmem : ∀ x : Option Error,
        x ∈ (gomap.range seed p.items.m).map (fun e => destroyed e.1) ↔
          ∃ e ∈ p.items.m, destroyed e.1 = x := by
      intro x
      simp only [List.mem_map, gomap.mem_range]
    refine ⟨_, Pool.Close_open p seed destroyed hc (htok hc), ?_, ?_, ?_⟩
    · show errorsJoin _ = none ↔ _
      rw [errorsJoin_eq_none]
      constructor
      · intro h
        right
        intro e he
        exact h _ ((hmem _).2 ⟨e, he, rfl⟩)
      · rintro (h | h)
        · rw [hc] at h
          cases h
        · intro x hx
          obtain ⟨e, he, rfl⟩ := (hmem x).1 hx
          exact h e he
    · intro _ e he err herr
      obtain ⟨es, h1, h2, h3⟩ :=
        errorsJoin_wraps ((hmem (some err)).2 ⟨e, he, herr⟩)
      exact ⟨es, h1, h2, fun x => (h3 x).trans (hmem (some x))⟩
    · intro h
      rw [hc] at h
      cases h

theorem close_result_witness :
    ((⟨⟨[(⟨0, 7⟩, false), (⟨1, 8⟩, true)]⟩, ⟨2, 1⟩, false, 2⟩ : Pool Nat).closed = false →
      (⟨⟨[(⟨0, 7⟩, false), (⟨1, 8⟩, true)]⟩, ⟨2, 1⟩, false, 2⟩ : Pool Nat).checkedOut ≤ 1) ∧
    ∃ r, (⟨⟨[(⟨0, 7⟩, false), (⟨1, 8⟩, true)]⟩, ⟨2, 1⟩, false, 2⟩ : Pool Nat).Close []
          (fun h => if h.addr = 1 then some (.other 3) else none) = .done r ∧
      (r.result = none ↔
        ((⟨⟨[(⟨0, 7⟩, false), (⟨1, 8⟩, true)]⟩, ⟨2, 1⟩, false, 2⟩ : Pool Nat).closed = true ∨
          ∀ e ∈ [((⟨0, 7⟩ : Handle Nat), false), (⟨1, 8⟩, true)],
            (if e.1.addr = 1 then some (Error.other 3) else none) = none)) :=
  ⟨fun _ => by decide,
    let ⟨r, h1, h2, _⟩ :=
      close_result (⟨⟨[(⟨0, 7⟩, false), (⟨1, 8⟩, true)]⟩, ⟨2, 1⟩, false, 2⟩ : Pool Nat) []
        (fun h => if h.addr = 1 then some (.other 3) else none) (fun _ => by decide)
    ⟨r, h1, h2⟩⟩

/-- C13: for a handle `h` that is checked out when Close runs on an open pool
reached from NewPool (a token being held for every CHECKED_OUT entry): Close
returns, having invoked the destroy callback once for each entry it visited,
and `h` is the key of exactly one of them; Destroy(h) then returns nil and
invokes no callback, and Release(h) changes nothing. -/
theorem destroy_after_close (capacity : Int) (p0 p : Pool T) (pre : List (Op T))
    (hnew : NewPool capacity = .ok p0) (hrun : p0.run pre = .done p)
    (h : Handle T) (seed : List Nat) (destroyed : Handle T → Option Error)
    (destroyed2 : Option Error)
    (hopen : p.closed = false) (hout : gomap.lookup p.items.m h = some false)
    (htok : p.checkedOut ≤ p.sem.cur) :
    ∃ r, p.Close seed destroyed = .done r ∧
      r.calls = (gomap.range seed p.items.m).map (fun e => Call.destroy e.1.resource) ∧
      ((gomap.range seed p.items.m).map Prod.fst).count h = 1 ∧
      r.pool.Destroy h destroyed2 = .done { pool := r.pool, result := none, calls := [] } ∧
      r.pool.Release h = .done r.pool := by
  have hw := Pool.WF.reach hnew hrun
  have hperm : ((gomap.range seed p.items.m).map Prod.fst).Perm (p.items.m.map Prod.fst) :=
    (gomap.range_perm seed p.items.m).map _
  have hnd : ((gomap.range seed p.items.m).map Prod.fst).Nodup := hperm.nodup_iff.2 hw.nodup
  have hmem : h ∈ (gomap.range seed p.items.m).map Prod.fst :=
    hperm.mem_iff.2 (List.mem_map_of_mem Prod.fst (gomap.mem_of_lookup hout))
  have hl : gomap.lookup ([] : List (Handle T × Bool)) h = none := rfl
  exact ⟨_, Pool.Close_open p seed destroyed hopen htok, rfl,
    List.count_eq_one_of_mem hnd hmem,
    Pool.Destroy_absent _ h destroyed2 hl, Pool.Release_absent _ h hl⟩

theorem destroy_after_close_witness :
    (NewPool 2 : Except Error (Pool Nat)) = .ok ⟨⟨[]⟩, ⟨2, 0⟩, false, 0⟩ ∧
    (⟨⟨[]⟩, ⟨2, 0⟩, false, 0⟩ : Pool Nat).run [.Acquire .never [] (.ok 7)] =
      .done ⟨⟨[(⟨0, 7⟩, false)]⟩, ⟨2, 1⟩, false, 1⟩ ∧
    ∃ r, (⟨⟨[(⟨0, 7⟩, false)]⟩, ⟨2, 1⟩, false, 1⟩ : Pool Nat).Close [] (fun _ => none) =
        .done r ∧
      r.calls = [.destroy 7] ∧
      r.pool.Destroy ⟨0, 7⟩ none = .done { pool := r.pool, result := none, calls := [] } :=
  ⟨rfl, rfl,
    let ⟨r, h1, h2, _, h4, _⟩ :=
      destroy_after_close 2 ⟨⟨[]⟩, ⟨2, 0⟩, false, 0⟩
        (⟨⟨[(⟨0, 7⟩, false)]⟩, ⟨2, 1⟩, false, 1⟩ : Pool Nat)
        [.Acquire .never [] (.ok 7)] (by rfl) (by rfl) ⟨0, 7⟩ [] (fun _ => none) none
        rfl (by decide) (by decide)
    ⟨r, h1, h2, h4⟩⟩

/-- C14: NewPool returns an error and no pool exactly when the capacity is below
1; for a capacity of 1 or more it returns an open pool with an empty map and a
limiter of `capacity` tokens, none of them held. -/
theorem newPool_capacity (capacity : Int) :
    (capacity < 1 ↔ ∃ err, (NewPool capacity : Except Error (Pool T)) = .error err) ∧
    (1 ≤ capacity → ∃ p : Pool T, NewPool capacity = .ok p ∧ p.closed = false ∧
      p.items.m = [] ∧ p.items.Len = 0 ∧ (p.sem.size : Int) = capacity ∧ p.sem.cur = 0) := by
  by_cases hc : capacity < 1
  · have hnew : (NewPool capacity : Except Error (Pool T)) =
        .error (.errorString "capacity must be 1 or greater") := by
      simp only [NewPool, hc, if_true]
    refine ⟨⟨fun _ => ⟨_, hnew⟩, fun _ => hc⟩, fun h => ?_⟩
    omega
  · have hnew : (NewPool capacity : Except Error (Pool T)) =
        .ok { items := smap.Make capacity, sem := NewWeighted capacity.toNat,
              closed := false, allocated := 0 } := by
      simp only [NewPool, hc, if_false]
    refine ⟨⟨fun h => absurd h hc, ?_⟩, fun _ => ⟨_, hnew, rfl, rfl, rfl, ?_, rfl⟩⟩
    · rintro ⟨err, herr⟩
      rw [hnew] at herr
      cases herr
    · show ((capacity.toNat : Nat) : Int) = capacity
      omega

theorem newPool_capacity_witness :
    (1 : Int) ≤ 2 ∧
    ∃ p : Pool Nat, NewPool 2 = .ok p ∧ p.closed = false ∧ p.items.m = [] ∧
      p.items.Len = 0 ∧ (p.sem.size : Int) = 2 ∧ p.sem.cur = 0 :=
  ⟨by decide, (newPool_capacity (T := Nat) 2).2 (by decide)⟩

theorem Pool.Acquire_ne_panicked (p : Pool T) (ctx : Ctx) (seed : List Nat)
    (created : Except Error T) : p.Acquire ctx seed created ≠ .panicked := by
  by_cases hfree : p.sem.cur < p.sem.size
  · rcases Bool.eq_false_or_eq_true p.closed with hc | hc
    · rw [Pool.Acquire_closed p ctx seed created hfree hc]
      intro h
      cases h
    · cases hf : (gomap.range seed p.items.m).find? (fun e => e.2) with
      | some x =>
        obtain ⟨existing, b⟩ := x
        rw [Pool.Acquire_reuse p ctx seed created hfree hc existing b hf]
        intro h
        cases h
      | none =>
        cases created with
        | error err =>
          rw [Pool.Acquire_create_error p ctx seed err hfree hc hf]
          intro h
          cases h
        | ok x =>
          rw [Pool.Acquire_create_ok p ctx seed x hfree hc hf]
          intro h
          cases h
  · have hfull : p.sem.size ≤ p.sem.cur := by omega
    cases ctx with
    | never =>
      rw [Pool.Acquire_full_never p seed created hfull]
      intro h
      cases h
    | expires err =>
      rw [Pool.Acquire_full_expires p err seed created hfull]
      intro h
      cases h

/-- A call that is not a `Release` of an AVAILABLE handle does not panic and
keeps the token accounting. -/
theorem Pool.TokensMatch.kept_by_step {p : Pool T} (hw : p.WF) (htok : p.TokensMatch)
    {op : Op T} (hd : op.disciplinedAt p = true) :
    p.step op ≠ .panicked ∧
    ∀ p', p.step op = .done p' → p'.TokensMatch ∧ p'.sem.size = p.sem.size := by
  obtain ⟨heq, hle⟩ := htok
  simp only [Pool.checkedOut] at heq
  cases op with
  | Acquire ctx seed created =>
    simp only [Pool.step]
    constructor
    · intro h
      split at h
      · cases h
      · cases h
      · rename_i hp
        exact Pool.Acquire_ne_panicked p ctx seed created hp
    · intro p' h
      split at h
      · rename_i r hr
        cases h
        rcases Pool.Acquire_done_cases hr with ⟨hp, _, _⟩ | ⟨existing, hmem, hfree, _, rfl⟩ |
          ⟨x, _, hfree, _, _, rfl⟩
        · rw [hp]
          exact ⟨⟨heq, hle⟩, rfl⟩
        · have hl := gomap.lookup_of_mem hw.nodup hmem
          have := gomap.countP_replace false hw.nodup hl
          simp only [↓reduceIte, Bool.false_eq_true] at this
          refine ⟨⟨?_, ?_⟩, rfl⟩
          · show p.sem.cur + 1 = List.countP _ (gomap.assign p.items.m existing false)
            rw [gomap.assign_of_lookup_some false hl]
            omega
          · show p.sem.cur + 1 ≤ p.sem.size
            omega
        · have hl := hw.lookup_fresh x
          refine ⟨⟨?_, ?_⟩, rfl⟩
          · show p.sem.cur + 1 = List.countP _ (gomap.assign p.items.m ⟨p.allocated, x⟩ false)
            rw [gomap.assign_of_lookup_none false hl]
            simp
            omega
          · show p.sem.cur + 1 ≤ p.sem.size
            omega
      · cases h
      · cases h
  | Release k =>
    simp only [Pool.step]
    cases hl : gomap.lookup p.items.m k with
    | none =>
      rw [Pool.Release_absent p k hl]
      exact ⟨fun h => (by cases h), fun p' h => by cases h; exact ⟨⟨heq, hle⟩, rfl⟩⟩
    | some w =>
      cases w with
      | true => simp [Op.disciplinedAt, hl] at hd
      | false =>
        have h1 : 1 ≤ p.sem.cur := Pool.TokensMatch.held_pos ⟨heq, hle⟩ hl
        rw [Pool.Release_present p k false hl h1]
        refine ⟨fun h => (by cases h), fun p' h => ?_⟩
        cases h
        have := gomap.countP_replace true hw.nodup hl
        simp only [↓reduceIte, Bool.false_eq_true] at this
        refine ⟨⟨?_, ?_⟩, rfl⟩
        · show p.sem.cur - 1 = List.countP _ (gomap.assign p.items.m k true)
          rw [gomap.assign_of_lookup_some true hl]
          omega
        · show p.sem.cur - 1 ≤ p.sem.size
          omega
  | Destroy k destroyed =>
    simp only [Pool.step]
    cases hl : gomap.lookup p.items.m k with
    | none =>
      rw [Pool.Destroy_absent p k destroyed hl]
      exact ⟨fun h => (by cases h), fun p' h => by cases h; exact ⟨⟨heq, hle⟩, rfl⟩⟩
    | some w =>
      have hcount := gomap.countP_delete hw.nodup hl
      cases w with
      | true =>
        rw [Pool.Destroy_available p k destroyed hl]
        refine ⟨fun h => (by cases h), fun p' h => ?_⟩
        cases h
        simp only [↓reduceIte] at hcount
        refine ⟨⟨?_, hle⟩, rfl⟩
        show p.sem.cur = List.countP _ (gomap.delete p.items.m k)
        omega
      | false =>
        have h1 : 1 ≤ p.sem.cur := Pool.TokensMatch.held_pos ⟨heq, hle⟩ hl
        rw [Pool.Destroy_checkedOut p k destroyed hl h1]
        refine ⟨fun h => (by cases h), fun p' h => ?_⟩
        cases h
        simp only [↓reduceIte, Bool.false_eq_true] at hcount
        refine ⟨⟨?_, ?_⟩, rfl⟩
        · show p.sem.cur - 1 = List.countP _ (gomap.delete p.items.m k)
          omega
        · show p.sem.cur - 1 ≤ p.sem.size
          omega
  | Close seed destroyed =>
    simp only [Pool.step]
    rcases Bool.eq_false_or_eq_true p.closed with hc | hc
    · rw [Pool.Close_closed p seed destroyed hc]
      exact ⟨fun h => (by cases h), fun p' h => by cases h; exact ⟨⟨heq, hle⟩, rfl⟩⟩
    · have hco : p.checkedOut ≤ p.sem.cur := by
        simp only [Pool.checkedOut]
        omega
      rw [Pool.Close_open p seed destroyed hc hco]
      refine ⟨fun h => (by cases h), fun p' h => ?_⟩
      cases h
      refine ⟨⟨?_, ?_⟩, rfl⟩
      · show p.sem.cur - p.checkedOut = List.countP _ []
        simp only [Pool.checkedOut, List.countP_nil]
        omega
      · show p.sem.cur - p.checkedOut ≤ p.sem.size
        omega

theorem Pool.TokensMatch.kept_by_run {ops : List (Op T)} : ∀ {p : Pool T}, p.WF →
    p.TokensMatch → p.disciplined ops = true →
    p.run ops ≠ .panicked ∧
    ∀ p', p.run ops = .done p' → p'.TokensMatch ∧ p'.sem.size = p.sem.size := by
  induction ops with
  | nil =>
    intro p _ htok _
    simp only [Pool.run]
    exact ⟨fun h => (by cases h), fun p' h => by cases h; exact ⟨htok, rfl⟩⟩
  | cons op ops ih =>
    intro p hw htok hd
    simp only [Pool.disciplined, Bool.and_eq_true] at hd
    obtain ⟨hd1, hd2⟩ := hd
    obtain ⟨hnp, hstep⟩ := htok.kept_by_step hw hd1
    simp only [Pool.run]
    cases hs : p.step op with
    | done q =>
      rw [hs] at hd2
      obtain ⟨hq, hsize⟩ := hstep q hs
      obtain ⟨a, b⟩ := ih (hw.after_step hs) hq hd2
      refine ⟨a, fun p' h => ?_⟩
      obtain ⟨c, d⟩ := b p' h
      exact ⟨c, d.trans hsize⟩
    | blocked => exact ⟨fun h => (by cases h), fun p' h => by cases h⟩
    | panicked => exact absurd hs hnp

/-- C20: on a pool created by NewPool with capacity N, a sequence of calls in
which Release is never called on a handle whose entry is AVAILABLE never panics
in the semaphore, and in the state it reaches the held tokens are as many as
the CHECKED_OUT entries and at most N. -/
theorem token_accounting (capacity : Int) (p0 : Pool T) (ops : List (Op T))
    (hnew : NewPool capacity = .ok p0) (hd : p0.disciplined ops = true) :
    p0.run ops ≠ .panicked ∧
    ∀ p, p0.run ops = .done p →
      p.checkedOut = p.sem.cur ∧ p.sem.cur ≤ p.sem.size ∧ (p.sem.size : Int) = capacity := by
  have hw := Pool.WF.of_NewPool hnew
  have hcap : (p0.sem.size : Int) = capacity ∧ p0.TokensMatch := by
    unfold resource.NewPool at hnew
    split at hnew
    · cases hnew
    · rename_i hc
      cases hnew
      refine ⟨?_, rfl, Nat.zero_le _⟩
      show ((capacity.toNat : Nat) : Int) = capacity
      omega
  obtain ⟨a, b⟩ := Pool.TokensMatch.kept_by_run hw hcap.2 hd
  refine ⟨a, fun p h => ?_⟩
  obtain ⟨⟨c, d⟩, e⟩ := b p h
  exact ⟨c.symm, d, by rw [e]; exact hcap.1⟩

theorem token_accounting_witness :
    (NewPool 2 : Except Error (Pool Nat)) = .ok ⟨⟨[]⟩, ⟨2, 0⟩, false, 0⟩ ∧
    (⟨⟨[]⟩, ⟨2, 0⟩, false, 0⟩ : Pool Nat).disciplined
        [.Acquire .never [] (.ok 7), .Acquire .never [] (.ok 8), .Release ⟨0, 7⟩,
         .Destroy ⟨1, 8⟩ none, .Release ⟨1, 8⟩] = true ∧
    (⟨⟨[]⟩, ⟨2, 0⟩, false, 0⟩ : Pool Nat).run
        [.Acquire .never [] (.ok 7), .Acquire .never [] (.ok 8), .Release ⟨0, 7⟩,
         .Destroy ⟨1, 8⟩ none, .Release ⟨1, 8⟩] ≠ .panicked :=
  ⟨rfl, by rfl,
    (token_accounting 2 ⟨⟨[]⟩, ⟨2, 0⟩, false, 0⟩
      [.Acquire .never [] (.ok 7), .Acquire .never [] (.ok 8), .Release ⟨0, 7⟩,
       .Destroy ⟨1, 8⟩ none, .Release ⟨1, 8⟩] (by rfl) (by rfl)).1⟩

end resource

/-! ## The claim about `smap.Map.Update` -/

namespace smap

variable {K V : Type} [DecidableEq K]

/-- C19: `Update(k, v)` returns true exactly when `k` was present; when it
returns true, `Get(k)` afterwards yields `v` and every other key reads as
before; when it returns false, the map is as before, `k` is still absent and
`Len` is the same. -/
theorem update_conditional_overwrite (sm : Map K V) (k : K) (v : V) :
    ((sm.Update k v).2 = true ↔ ∃ w, sm.Get k = some w) ∧
    ((sm.Update k v).2 = true →
      (sm.Update k v).1.Get k = some v ∧
      ∀ k', k' ≠ k → (sm.Update k v).1.Get k' = sm.Get k') ∧
    ((sm.Update k v).2 = false →
      (sm.Update k v).1 = sm ∧ (sm.Update k v).1.Get k = none ∧
      (sm.Update k v).1.Len = sm.Len) := by
  cases hl : gomap.lookup sm.m k with
  | none =>
    have hu : sm.Update k v = (sm, false) := by simp [Map.Update, hl]
    rw [hu]
    refine ⟨⟨fun h => (by cases h), ?_⟩, fun h => (by cases h), fun _ => ⟨rfl, hl, rfl⟩⟩
    rintro ⟨w, hw⟩
    simp only [Map.Get] at hw
    rw [hl] at hw
    cases hw
  | some w =>
    have hu : sm.Update k v = ({ m := gomap.assign sm.m k v }, true) := by
      simp [Map.Update, hl]
    rw [hu]
    refine ⟨⟨fun _ => ⟨w, hl⟩, fun _ => rfl⟩, fun _ => ⟨?_, ?_⟩, fun h => by cases h⟩
    · show gomap.lookup (gomap.assign sm.m k v) k = some v
      rw [gomap.lookup_assign, if_pos rfl]
    · intro k' hk'
      show gomap.lookup (gomap.assign sm.m k v) k' = gomap.lookup sm.m k'
      rw [gomap.lookup_assign, if_neg hk']

theorem update_conditional_overwrite_witness :
    (((⟨[(1, 10), (2, 20)]⟩ : Map Nat Nat).Update 2 5).2 = true →
      ((⟨[(1, 10), (2, 20)]⟩ : Map Nat Nat).Update 2 5).1.Get 2 = some 5 ∧
      ∀ k', k' ≠ 2 → ((⟨[(1, 10), (2, 20)]⟩ : Map Nat Nat).Update 2 5).1.Get k' =
        (⟨[(1, 10), (2, 20)]⟩ : Map Nat Nat).Get k') ∧
    ((⟨[(1, 10), (2, 20)]⟩ : Map Nat Nat).Update 2 5).2 = true ∧
    ((⟨[(1, 10), (2, 20)]⟩ : Map Nat Nat).Update 3 5).2 = false :=
  ⟨(update_conditional_overwrite (⟨[(1, 10), (2, 20)]⟩ : Map Nat Nat) 2 5).2.1, by decide,
    by decide⟩

end smap

/-! ## The claims about `Shareable` -/

namespace resource

variable {T : Type} [DecidableEq T]

theorem Shareable.Acquire_stored (s : Shareable T) (ctx : Ctx) (created : Except Error T)
    (h : Handle T) (hopen : s.closed = false) (hs : s.handle = some h) :
    s.Acquire ctx created = { manager := s, result := (some h, none), calls := [] } := by
  simp [Shareable.Acquire, hopen, hs]

theorem Shareable.acquire_when_closed (s : Shareable T) (ctx : Ctx) (created : Except Error T)
    (hc : s.closed = true) :
    s.Acquire ctx created = { manager := s, result := (none, some .ErrClosed), calls := [] } := by
  simp [Shareable.Acquire, hc]

theorem Shareable.Destroy_empty (s : Shareable T) (h : Option (Handle T))
    (destroyed : Option Error) (hs : s.handle = none) :
    s.Destroy h destroyed = { manager := s, result := none, calls := [] } := by
  unfold Shareable.Destroy
  rw [hs]

theorem Shareable.Destroy_stale (s : Shareable T) (h : Option (Handle T))
    (destroyed : Option Error) (hne : h ≠ s.handle) :
    s.Destroy h destroyed = { manager := s, result := none, calls := [] } := by
  unfold Shareable.Destroy
  cases hs : s.handle with
  | none => rfl
  | some current =>
    cases h with
    | none => rfl
    | some k =>
      have : k ≠ current := by
        intro hk
        rw [hs, hk] at hne
        exact hne rfl
      simp [this]

theorem Shareable.Destroy_current (s : Shareable T) (h : Handle T)
    (destroyed : Option Error) (hs : s.handle = some h) :
    s.Destroy (some h) destroyed =
      { manager := { s with handle := none }, result := destroyed,
        calls := [.destroy h.resource] } := by
  unfold Shareable.Destroy
  rw [hs]
  simp

theorem Shareable.acquire_creates (s : Shareable T) (ctx : Ctx) (x : T)
    (hopen : s.closed = false) (hs : s.handle = none) :
    s.Acquire ctx (.ok x) =
      { manager := { s with handle := some ⟨s.allocated, x⟩, allocated := s.allocated + 1 },
        result := (some ⟨s.allocated, x⟩, none), calls := [.create ctx] } := by
  simp [Shareable.Acquire, hopen, hs]

theorem Shareable.acquire_create_fails (s : Shareable T) (ctx : Ctx) (err : Error)
    (hopen : s.closed = false) (hs : s.handle = none) :
    s.Acquire ctx (.error err) =
      { manager := s,
        result := (none, some (.wrapf "failed to allocate new resource: %w" err)),
        calls := [.create ctx] } := by
  simp [Shareable.Acquire, hopen, hs]

/-- An Acquire that returns a handle leaves the manager open with that handle
stored. -/
theorem Shareable.Acquire_some {s : Shareable T} {ctx : Ctx} {created : Except Error T}
    {h : Handle T} (hacq : (s.Acquire ctx created).result.1 = some h) :
    (s.Acquire ctx created).manager.closed = false ∧
    (s.Acquire ctx created).manager.handle = some h := by
  rcases Bool.eq_false_or_eq_true s.closed with hc | hc
  · rw [Shareable.acquire_when_closed s ctx created hc] at hacq
    cases hacq
  · cases hs : s.handle with
    | some k =>
      rw [Shareable.Acquire_stored s ctx created k hc hs] at hacq ⊢
      cases hacq
      exact ⟨hc, hs⟩
    | none =>
      cases created with
      | error err =>
        rw [Shareable.acquire_create_fails s ctx err hc hs] at hacq
        cases hacq
      | ok x =>
        rw [Shareable.acquire_creates s ctx x hc hs] at hacq ⊢
        cases hacq
        exact ⟨hc, rfl⟩

theorem Shareable.run_keeps {mid : List (SOp T)} : ∀ {s : Shareable T} {h : Handle T},
    s.closed = false → s.handle = some h → (∀ op ∈ mid, op.keeps = true) →
    s.run mid = s := by
  induction mid with
  | nil => intro s h _ _ _; rfl
  | cons op mid ih =>
    intro s h hopen hs hk
    have hstep : s.step op = s := by
      have := hk op (List.mem_cons_self _ _)
      cases op with
      | Acquire ctx created =>
        simp only [Shareable.step, Shareable.Acquire_stored s ctx created h hopen hs]
      | Release k => rfl
      | Destroy k d => simp [SOp.keeps] at this
      | Close d => simp [SOp.keeps] at this
    simp only [Shareable.run, hstep]
    exact ih hopen hs (fun o ho => hk o (List.mem_cons_of_mem _ ho))

/-- C15: when an Acquire on a Shareable returns a handle `h`, then after any
further calls that are Acquire or Release (no Destroy, no Close) the manager is
as it was, every Acquire returns the same `h` without invoking the create
callback, and Release changes nothing. -/
theorem shareable_shared_handle (s : Shareable T) (ctx : Ctx) (created : Except Error T)
    (h : Handle T) (hacq : (s.Acquire ctx created).result.1 = some h)
    (mid : List (SOp T)) (hmid : ∀ op ∈ mid, op.keeps = true)
    (ctx2 : Ctx) (created2 : Except Error T) (k : Option (Handle T)) :
    (s.Acquire ctx created).manager.run mid = (s.Acquire ctx created).manager ∧
    ((s.Acquire ctx created).manager.run mid).Acquire ctx2 created2 =
      { manager := (s.Acquire ctx created).manager, result := (some h, none), calls := [] } ∧
    ((s.Acquire ctx created).manager.run mid).Release k = (s.Acquire ctx created).manager ∧
    (s.handle = none → (s.Acquire ctx created).calls = [.create ctx]) ∧
    (s.handle ≠ none → (s.Acquire ctx created).calls = []) := by
  obtain ⟨hopen, hs⟩ := Shareable.Acquire_some hacq
  have hrun := Shareable.run_keeps hopen hs hmid
  refine ⟨hrun, ?_, ?_, ?_, ?_⟩
  · rw [hrun]
    exact Shareable.Acquire_stored _ ctx2 created2 h hopen hs
  · rw [hrun]
    rfl
  · intro hnone
    rcases Bool.eq_false_or_eq_true s.closed with hc | hc
    · rw [Shareable.acquire_when_closed s ctx created hc] at hacq
      cases hacq
    · cases created with
      | error err =>
        rw [Shareable.acquire_create_fails s ctx err hc hnone] at hacq
        cases hacq
      | ok x => rw [Shareable.acquire_creates s ctx x hc hnone]
  · intro hsome
    rcases Bool.eq_false_or_eq_true s.closed with hc | hc
    · rw [Shareable.acquire_when_closed s ctx created hc]
    · cases hh : s.handle with
      | none => exact absurd hh hsome
      | some k => rw [Shareable.Acquire_stored s ctx created k hc hh]

theorem shareable_shared_handle_witness :
    ((NewShareable : Shareable Nat).Acquire .never (.ok 1)).result.1 = some ⟨0, 1⟩ ∧
    (((NewShareable : Shareable Nat).Acquire .never (.ok 1)).manager.run
        [.Release (some ⟨0, 1⟩), .Acquire .never (.ok 2)]).Acquire .never (.ok 3) =
      { manager := ((NewShareable : Shareable Nat).Acquire .never (.ok 1)).manager,
        result := (some ⟨0, 1⟩, none), calls := [] } :=
  ⟨rfl,
    (shareable_shared_handle (NewShareable : Shareable Nat) .never (.ok 1) ⟨0, 1⟩ (by rfl)
      [.Release (some ⟨0, 1⟩), .Acquire .never (.ok 2)] (by decide) .never (.ok 3) none).2.1⟩

theorem Shareable.WF.step_wf {s : Shareable T} (hw : s.WF) (op : SOp T) :
    (s.step op).WF := by
  cases op with
  | Acquire ctx created =>
    simp only [Shareable.step]
    rcases Bool.eq_false_or_eq_true s.closed with hc | hc
    · rw [Shareable.acquire_when_closed s ctx created hc]
      exact hw
    · cases hs : s.handle with
      | some k =>
        rw [Shareable.Acquire_stored s ctx created k hc hs]
        exact hw
      | none =>
        cases created with
        | error err =>
          rw [Shareable.acquire_create_fails s ctx err hc hs]
          exact hw
        | ok x =>
          rw [Shareable.acquire_creates s ctx x hc hs]
          refine ⟨?_, ?_⟩
          · intro h hh
            cases hh
            exact Nat.lt_succ_self _
          · intro hc'
            rw [hc] at hc'
            cases hc'
  | Release k => exact hw
  | Destroy k destroyed =>
    simp only [Shareable.step]
    by_cases hk : k = s.handle
    · cases hs : s.handle with
      | none =>
        rw [Shareable.Destroy_empty s k destroyed hs]
        exact hw
      | some current =>
        rw [hs] at hk
        rw [hk, Shareable.Destroy_current s current destroyed hs]
        exact ⟨fun h hh => (by cases hh), fun _ => rfl⟩
    · rw [Shareable.Destroy_stale s k destroyed hk]
      exact hw
  | Close destroyed =>
    rcases s with ⟨handle, closed, allocated⟩
    cases handle with
    | none =>
      have hd : (Shareable.step ⟨none, closed, allocated⟩ (SOp.Close destroyed) : Shareable T) =
          ⟨none, true, allocated⟩ := rfl
      rw [hd]
      exact ⟨fun h hh => (by cases hh), fun _ => rfl⟩
    | some current =>
      have hd : (Shareable.step ⟨some current, closed, allocated⟩ (SOp.Close destroyed) :
          Shareable T) = ⟨none, true, allocated⟩ := by
        simp [Shareable.step, Shareable.Close, Shareable.Destroy]
      rw [hd]
      exact ⟨fun h hh => (by cases hh), fun _ => rfl⟩

theorem Shareable.WF.run_wf {ops : List (SOp T)} : ∀ {s : Shareable T}, s.WF →
    (s.run ops).WF := by
  induction ops with
  | nil => intro s hw; exact hw
  | cons op ops ih => intro s hw; exact ih (hw.step_wf op)

theorem Shareable.WF.initial : (NewShareable : Shareable T).WF :=
  ⟨fun h hh => (by cases hh), fun _ => rfl⟩

/-- C16: on an open Shareable reached from NewShareable whose stored handle is
`h`, Destroy(h) invokes the destroy callback once, on the resource of `h`,
returns what the callback returned and clears the slot, whatever that result
is; the next Acquire then invokes the create callback once and, given a
resource by it, stores and returns a newly allocated handle, distinct from `h`,
that wraps this resource. -/
theorem shareable_recreates (pre : List (SOp T)) (s : Shareable T)
    (hreach : (NewShareable : Shareable T).run pre = s) (h : Handle T)
    (hopen : s.closed = false) (hcur : s.handle = some h)
    (destroyed : Option Error) (ctx : Ctx) (created : Except Error T) :
    s.Destroy (some h) destroyed =
      { manager := { s with handle := none }, result := destroyed,
        calls := [.destroy h.resource] } ∧
    (({ s with handle := none } : Shareable T).Acquire ctx created).calls = [.create ctx] ∧
    ∀ x, created = .ok x →
      (({ s with handle := none } : Shareable T).Acquire ctx created).result =
        (some ⟨s.allocated, x⟩, none) ∧
      (({ s with handle := none } : Shareable T).Acquire ctx created).manager.handle =
        some ⟨s.allocated, x⟩ ∧
      (⟨s.allocated, x⟩ : Handle T) ≠ h ∧
      (⟨s.allocated, x⟩ : Handle T).Access = x := by
  have hw : s.WF := hreach ▸ Shareable.WF.initial.run_wf
  have hlt := hw.fresh h hcur
  refine ⟨Shareable.Destroy_current s h destroyed hcur, ?_, ?_⟩
  · cases created with
    | error err =>
      rw [Shareable.acquire_create_fails ({ s with handle := none } : Shareable T) ctx err
        hopen rfl]
    | ok x =>
      rw [Shareable.acquire_creates ({ s with handle := none } : Shareable T) ctx x hopen rfl]
  · intro x hx
    subst hx
    rw [Shareable.acquire_creates ({ s with handle := none } : Shareable T) ctx x hopen rfl]
    refine ⟨rfl, rfl, ?_, rfl⟩
    intro heq
    rw [← heq] at hlt
    exact Nat.lt_irrefl _ hlt

theorem shareable_recreates_witness :
    (NewShareable : Shareable Nat).run [.Acquire .never (.ok 1)] = ⟨some ⟨0, 1⟩, false, 1⟩ ∧
    (⟨some ⟨0, 1⟩, false, 1⟩ : Shareable Nat).Destroy (some ⟨0, 1⟩) (some (.other 4)) =
      { manager := ⟨none, false, 1⟩, result := some (.other 4), calls := [.destroy 1] } :=
  ⟨rfl,
    (shareable_recreates [.Acquire .never (.ok 1)] (⟨some ⟨0, 1⟩, false, 1⟩ : Shareable Nat)
      (by rfl) ⟨0, 1⟩ rfl rfl (some (.other 4)) .never (.ok 2)).1⟩

/-- C17: Destroy(h) on a Shareable invokes the destroy callback, and changes the
slot, exactly when the slot is not empty and `h` is the stored handle; it then
calls the callback once on the resource of `h`, returns its result and leaves
the slot empty.  In every other case it returns nil, invokes no callback and
leaves the manager as it was. -/
theorem shareable_destroy_stale (s : Shareable T) (h : Option (Handle T))
    (destroyed : Option Error) :
    ((s.Destroy h destroyed).calls ≠ [] ↔ (s.handle ≠ none ∧ h = s.handle)) ∧
    ((s.Destroy h destroyed).manager.handle ≠ s.handle ↔ (s.handle ≠ none ∧ h = s.handle)) ∧
    (∀ current, s.handle = some current → h = some current →
      s.Destroy h destroyed =
        { manager := { s with handle := none }, result := destroyed,
          calls := [.destroy current.resource] }) ∧
    (¬ (s.handle ≠ none ∧ h = s.handle) →
      s.Destroy h destroyed = { manager := s, result := none, calls := [] }) := by
  by_cases hk : h = s.handle
  · cases hs : s.handle with
    | none =>
      rw [Shareable.Destroy_empty s h destroyed hs]
      refine ⟨⟨fun hne => absurd rfl hne, fun hc => absurd rfl hc.1⟩,
        ⟨fun hne => absurd hs hne, fun hc => absurd rfl hc.1⟩,
        fun current hc => (by cases hc), fun _ => rfl⟩
    | some current =>
      rw [hs] at hk
      subst hk
      rw [Shareable.Destroy_current s current destroyed hs]
      refine ⟨⟨fun _ => ⟨by simp, rfl⟩, fun _ => by simp⟩,
        ⟨fun _ => ⟨by simp, rfl⟩, fun _ => by simp [hs]⟩, ?_, ?_⟩
      · intro c hc _
        cases hc
        rfl
      · intro hn
        exact absurd ⟨by simp, rfl⟩ hn
  · rw [Shareable.Destroy_stale s h destroyed hk]
    refine ⟨⟨fun hne => absurd rfl hne, fun hc => absurd hc.2 hk⟩,
      ⟨fun hne => absurd rfl hne, fun hc => absurd hc.2 hk⟩, ?_, fun _ => rfl⟩
    intro current hc hh
    rw [hc, hh] at hk
    exact absurd rfl hk

theorem shareable_destroy_stale_witness :
    ¬ ((⟨some ⟨1, 2⟩, false, 2⟩ : Shareable Nat).handle ≠ none ∧
        some ⟨0, 1⟩ = (⟨some ⟨1, 2⟩, false, 2⟩ : Shareable Nat).handle) ∧
    (⟨some ⟨1, 2⟩, false, 2⟩ : Shareable Nat).Destroy (some ⟨0, 1⟩) (some (.other 4)) =
      { manager := ⟨some ⟨1, 2⟩, false, 2⟩, result := none, calls := [] } :=
  ⟨by decide,
    (shareable_destroy_stale (⟨some ⟨1, 2⟩, false, 2⟩ : Shareable Nat) (some ⟨0, 1⟩)
      (some (.other 4))).2.2.2 (by decide)⟩

theorem Shareable.run_closed {ops : List (SOp T)} : ∀ {s : Shareable T},
    s.closed = true → s.handle = none → s.run ops = s := by
  induction ops with
  | nil => intro s _ _; rfl
  | cons op ops ih =>
    intro s hc hs
    have hstep : s.step op = s := by
      cases op with
      | Acquire ctx created => simp only [Shareable.step, Shareable.acquire_when_closed s ctx created hc]
      | Release k => rfl
      | Destroy k d => simp only [Shareable.step, Shareable.Destroy_empty s k d hs]
      | Close d =>
        rcases s with ⟨handle, closed, allocated⟩
        simp only at hc hs
        subst hc hs
        rfl
    simp only [Shareable.run, hstep]
    exact ih hc hs

/-- C18: Close on a Shareable marks it closed and leaves the slot empty; with a
stored handle it invokes the destroy callback once, on its resource, and
returns the callback's result, with an empty slot it returns nil and invokes
nothing.  After any later calls the manager is still closed with an empty
slot, every Acquire returns a nil handle and ErrClosed without invoking the
create callback, and another Close returns nil and invokes no callback. -/
theorem shareable_close_terminal (s : Shareable T) (destroyed : Option Error)
    (post : List (SOp T)) (ctx : Ctx) (created : Except Error T) (destroyed2 : Option Error) :
    (s.Close destroyed).manager.closed = true ∧
    (s.Close destroyed).manager.handle = none ∧
    (∀ h, s.handle = some h →
      (s.Close destroyed).result = destroyed ∧
      (s.Close destroyed).calls = [.destroy h.resource]) ∧
    (s.handle = none → (s.Close destroyed).result = none ∧ (s.Close destroyed).calls = []) ∧
    (s.Close destroyed).manager.run post = (s.Close destroyed).manager ∧
    ((s.Close destroyed).manager.run post).Acquire ctx created =
      { manager := (s.Close destroyed).manager, result := (none, some .ErrClosed),
        calls := [] } ∧
    ((s.Close destroyed).manager.run post).Close destroyed2 =
      { manager := (s.Close destroyed).manager, result := none, calls := [] } := by
  have hstate : (s.Close destroyed).manager.closed = true ∧
      (s.Close destroyed).manager.handle = none ∧
      (∀ h, s.handle = some h →
        (s.Close destroyed).result = destroyed ∧
        (s.Close destroyed).calls = [.destroy h.resource]) ∧
      (s.handle = none →
        (s.Close destroyed).result = none ∧ (s.Close destroyed).calls = []) := by
    rcases s with ⟨handle, closed, allocated⟩
    cases handle with
    | none =>
      have hd : (Shareable.Close ⟨none, closed, allocated⟩ destroyed : SRet T (Option Error)) =
          { manager := ⟨none, true, allocated⟩, result := none, calls := [] } := rfl
      rw [hd]
      exact ⟨rfl, rfl, fun h hh => (by cases hh), fun _ => ⟨rfl, rfl⟩⟩
    | some current =>
      have hd : (Shareable.Close ⟨some current, closed, allocated⟩ destroyed :
          SRet T (Option Error)) =
          { manager := ⟨none, true, allocated⟩, result := destroyed,
            calls := [.destroy current.resource] } := by
        simp [Shareable.Close, Shareable.Destroy]
      rw [hd]
      refine ⟨rfl, rfl, ?_, fun hh => (by cases hh)⟩
      intro h hh
      cases hh
      exact ⟨rfl, rfl⟩
  obtain ⟨hc, hn, h3, h4⟩ := hstate
  have hrun : (s.Close destroyed).manager.run post = (s.Close destroyed).manager :=
    Shareable.run_closed hc hn
  refine ⟨hc, hn, h3, h4, hrun, ?_, ?_⟩
  · rw [hrun]
    exact Shareable.acquire_when_closed _ ctx created hc
  · rw [hrun]
    generalize (s.Close destroyed).manager = q at hc hn
    rcases q with ⟨handle, closed, allocated⟩
    simp only at hc hn
    subst hc hn
    rfl

theorem shareable_close_terminal_witness :
    (⟨some ⟨0, 1⟩, false, 1⟩ : Shareable Nat).handle = some ⟨0, 1⟩ ∧
    ((⟨some ⟨0, 1⟩, false, 1⟩ : Shareable Nat).Close (some (.other 4))).result =
      some (.other 4) ∧
    ((⟨some ⟨0, 1⟩, false, 1⟩ : Shareable Nat).Close (some (.other 4))).calls =
      [.destroy 1] :=
  ⟨rfl,
    (shareable_close_terminal (⟨some ⟨0, 1⟩, false, 1⟩ : Shareable Nat) (some (.other 4))
      [.Destroy (some ⟨0, 1⟩) none] .never (.ok 2) none).2.2.1 ⟨0, 1⟩ rfl⟩

end resource

/-! ## `Destroy` and `Close` after a second `Release` -/

namespace resource

/-- C10, evaluated on the code: on a pool of capacity 2, after Acquire, Acquire,
Release(h1), Release(h1) no token is held while `h2` still has a CHECKED_OUT
entry in the map; Destroy(h2) then panics in the semaphore instead of
returning the result of the callback. -/
theorem destroy_panics_after_second_release :
    (NewPool 2 : Except Error (Pool Nat)) = .ok ⟨⟨[]⟩, ⟨2, 0⟩, false, 0⟩ ∧
    (⟨⟨[]⟩, ⟨2, 0⟩, false, 0⟩ : Pool Nat).run
        [.Acquire .never [] (.ok 7), .Acquire .never [] (.ok 8), .Release ⟨0, 7⟩,
         .Release ⟨0, 7⟩] =
      .done ⟨⟨[(⟨0, 7⟩, true), (⟨1, 8⟩, false)]⟩, ⟨2, 0⟩, false, 2⟩ ∧
    gomap.lookup [((⟨0, 7⟩ : Handle Nat), true), (⟨1, 8⟩, false)] ⟨1, 8⟩ = some false ∧
    (⟨⟨[(⟨0, 7⟩, true), (⟨1, 8⟩, false)]⟩, ⟨2, 0⟩, false, 2⟩ : Pool Nat).Destroy ⟨1, 8⟩ none =
      .panicked ∧
    (⟨⟨[(⟨0, 7⟩, true), (⟨1, 8⟩, false)]⟩, ⟨2, 0⟩, false, 2⟩ : Pool Nat).Destroy ⟨1, 8⟩
        (some (.other 3)) = .panicked :=
  ⟨rfl, rfl, rfl, rfl, rfl⟩

/-- C11, evaluated on the code: on a pool of capacity 2, after Acquire, Acquire,
Release(h1), Release(h1) the pool is open with two entries, one of them
CHECKED_OUT, and no token is held; the first Close then panics in the
semaphore, in either visiting order, instead of returning with an empty map. -/
theorem close_panics_after_second_release :
    (⟨⟨[]⟩, ⟨2, 0⟩, false, 0⟩ : Pool Nat).run
        [.Acquire .never [] (.ok 7), .Acquire .never [] (.ok 8), .Release ⟨0, 7⟩,
         .Release ⟨0, 7⟩] =
      .done ⟨⟨[(⟨0, 7⟩, true), (⟨1, 8⟩, false)]⟩, ⟨2, 0⟩, false, 2⟩ ∧
    (⟨⟨[(⟨0, 7⟩, true), (⟨1, 8⟩, false)]⟩, ⟨2, 0⟩, false, 2⟩ : Pool Nat).closed = false ∧
    (⟨⟨[(⟨0, 7⟩, true), (⟨1, 8⟩, false)]⟩, ⟨2, 0⟩, false, 2⟩ : Pool Nat).items.Len = 2 ∧
    (⟨⟨[(⟨0, 7⟩, true), (⟨1, 8⟩, false)]⟩, ⟨2, 0⟩, false, 2⟩ : Pool Nat).Close []
        (fun _ => none) = .panicked ∧
    (⟨⟨[(⟨0, 7⟩, true), (⟨1, 8⟩, false)]⟩, ⟨2, 0⟩, false, 2⟩ : Pool Nat).Close [1]
        (fun _ => none) = .panicked :=
  ⟨rfl, rfl, rfl, rfl, rfl⟩

/-- C12, evaluated on the code: on the open pool of capacity 3 reached by Acquire,
Acquire, Acquire, Release(h1), Release(h1), Release(h1), with a destroy callback
that returns nil for every resource, Close does not return nil: it panics in
the semaphore.  The same holds with a callback that fails for `h2`: no joined
error is returned. -/
theorem close_result_lost_after_second_release :
    (NewPool 3 : Except Error (Pool Nat)) = .ok ⟨⟨[]⟩, ⟨3, 0⟩, false, 0⟩ ∧
    (⟨⟨[]⟩, ⟨3, 0⟩, false, 0⟩ : Pool Nat).run
        [.Acquire .never [] (.ok 7), .Acquire .never [] (.ok 8), .Acquire .never [] (.ok 9),
         .Release ⟨0, 7⟩, .Release ⟨0, 7⟩, .Release ⟨0, 7⟩] =
      .done ⟨⟨[(⟨0, 7⟩, true), (⟨1, 8⟩, false), (⟨2, 9⟩, false)]⟩, ⟨3, 0⟩, false, 3⟩ ∧
    (⟨⟨[(⟨0, 7⟩, true), (⟨1, 8⟩, false), (⟨2, 9⟩, false)]⟩, ⟨3, 0⟩, false, 3⟩ :
      Pool Nat).Close [] (fun _ => none) = .panicked ∧
    (⟨⟨[(⟨0, 7⟩, true), (⟨1, 8⟩, false), (⟨2, 9⟩, false)]⟩, ⟨3, 0⟩, false, 3⟩ :
      Pool Nat).Close [] (fun h => if h.addr = 1 then some (.other 3) else none) = .panicked :=
  ⟨rfl, rfl, rfl, rfl⟩

end resource
